import Mathlib

/-!
Verification of the mediadc-massdedupe duplicate remover (src/massdedupe.ts,
src/types.ts) against its specification.

The development shallowly embeds the three core pieces of the program:

* the duplicate group selector (the per-group loop of `main`,
  src/massdedupe.ts:131-234): sorting, the exclude/include scan with the
  running index `firstNonIncludedWithSameSize`, the two fallback passes and
  the sanity check;
* the metadata resolver and cache (`getFilesInfo`, src/massdedupe.ts:294-359,
  and `cleanupPath`, src/massdedupe.ts:365-369), with the remote stat client
  as an explicit function argument and the periodic cache persistence
  recorded as a list of snapshots;
* the deletion executor (`remove`, src/massdedupe.ts:74-90, and the deletion
  loop of `main`, src/massdedupe.ts:252-259), with the remote delete client
  as an explicit function argument.

JavaScript strings are modelled through the character list underlying a Lean
`String`, so that every definition evaluates by kernel reduction; JavaScript
numbers holding file sizes and counters are modelled as `Nat` (the program
only ever adds, compares and takes remainders of non-negative values);
JavaScript `Map` and plain-object dictionaries are modelled as association
lists with replace-or-append assignment, mirroring insertion order and key
uniqueness.  The CLI argument preparation (trimming, upper-casing and
deduplicating the exclude/include patterns, src/massdedupe.ts:123-126) is
peripheral; the selector is modelled from the loop itself, which matches the
upper-cased file path against the already prepared patterns.  The display
field `size` set by `humanizeBytes` (src/massdedupe.ts:139) is presentation
only and is omitted from the file record.
-/

/-- Boolean prefix test on character lists (JavaScript `startsWith` core). -/
def charsPrefixOf : List Char → List Char → Bool
  | [], _ => true
  | _ :: _, [] => false
  | a :: as, b :: bs => a == b && charsPrefixOf as bs

/-- Boolean substring test on character lists (JavaScript `includes` core). -/
def charsContains (need : List Char) : List Char → Bool
  | [] => need.isEmpty
  | c :: rest => charsPrefixOf need (c :: rest) || charsContains need rest

/-- JavaScript `toUpperCase`, on the underlying character list. -/
def strToUpper (s : String) : String := String.mk (s.data.map Char.toUpper)

/-- JavaScript `s.includes(pat)`. -/
def strContains (s pat : String) : Bool := charsContains pat.data s.data

/-- JavaScript `s.startsWith(pre)`. -/
def strStartsWith (s pre : String) : Bool := charsPrefixOf pre.data s.data

/-- JavaScript `split(sep)` on character lists. -/
def splitChars (sep : Char) : List Char → List (List Char)
  | [] => [[]]
  | c :: rest =>
    let r := splitChars sep rest
    if c == sep then [] :: r
    else
      match r with
      | [] => [[c]]
      | s :: ss => (c :: s) :: ss

/-- JavaScript `join(sep)` on character lists. -/
def joinChars (sep : Char) : List (List Char) → List Char
  | [] => []
  | [s] => s
  | s :: ss => s ++ sep :: joinChars sep ss

/-- Embeds `cleanupPath` (src/massdedupe.ts:365-369): strip the leading
`files/` namespace segment via split, slice(1), join. -/
def cleanupPath (file : String) : String :=
  if strStartsWith file "files/" then
    String.mk (joinChars '/' ((splitChars '/' file.data).drop 1))
  else file

/-- The slice of the webdav `FileStat` the program depends on (only its
truthiness and presence are ever used; `size` stands for its payload). -/
structure FileStat where
  size : Nat
deriving Repr, DecidableEq

/-- Embeds `MediaDCFile` (src/types.ts:6-12); the optional display string
`size` is presentation only and omitted. -/
structure MediaDCFile where
  fileid : Nat
  filename : String
  filepath : String
  filesize : Nat
deriving Repr, DecidableEq

/-- Embeds `MediaDCGroup` (src/types.ts:1-5); `task_id` is never read. -/
structure MediaDCGroup where
  group_id : Nat
  files : List MediaDCFile
deriving Repr, DecidableEq

/-- Embeds the sort comparator of the selector (src/massdedupe.ts:142-151):
negative when `a` sorts before `b`. -/
def fileCompare (a b : MediaDCFile) : Int :=
  if a.filesize > b.filesize then -1
  else if a.filesize < b.filesize then 1
  else (a.filepath.length : Int) - (b.filepath.length : Int)

/-- The total preorder induced by `fileCompare`: `a` may come before `b`. -/
def FileOrd (a b : MediaDCFile) : Prop := fileCompare a b ≤ 0

instance : DecidableRel FileOrd := fun a b => by
  unfold FileOrd
  infer_instance

instance : IsTotal MediaDCFile FileOrd := by
  constructor
  intro a b
  unfold FileOrd fileCompare
  split <;> split <;> omega

instance : IsTrans MediaDCFile FileOrd := by
  constructor
  intro a b c h1 h2
  unfold FileOrd fileCompare at h1 h2 ⊢
  split at h1 <;> try split at h1
  all_goals split at h2 <;> try split at h2
  all_goals split <;> try split
  all_goals omega

/-- Embeds `group.files.sort(comparator)` (src/massdedupe.ts:142-151).
JavaScript `Array.prototype.sort` is a stable sort consistent with the
comparator; a stable sort is uniquely determined by the comparator, so the
stable `insertionSort` is a faithful model. -/
def sortFiles (l : List MediaDCFile) : List MediaDCFile := List.insertionSort FileOrd l

/-- Modelled from the spec wording of claim C3 (spec.md §4.2 step 2): size
descending as primary key and, on size ties, logical-path length descending
("the longer path ordered earlier").  Written from the spec's words, to be
compared with the order actually produced by `sortFiles`. -/
def specTieBreak (a b : MediaDCFile) : Prop :=
  b.filesize < a.filesize ∨ (a.filesize = b.filesize ∧ b.filepath.length ≤ a.filepath.length)

instance : DecidableRel specTieBreak := fun a b => by
  unfold specTieBreak
  infer_instance

/-- JavaScript key-presence test (`key in obj`, `map.has(key)`) on a
dictionary modelled as an association list in insertion order. -/
def assocHas {κ ν : Type} [BEq κ] (m : List (κ × ν)) (k : κ) : Bool :=
  m.any (fun p => p.1 == k)

/-- JavaScript dictionary read (`obj[key]`, `map.get(key)`): `none` when the
key is absent. -/
def assocGet {κ ν : Type} [BEq κ] (m : List (κ × ν)) (k : κ) : Option ν :=
  (m.find? (fun p => p.1 == k)).map (fun p => p.2)

/-- JavaScript dictionary write (`obj[key] = v`, `map.set(key, v)`): replace
in place when the key is present, append when new. -/
def assocSet {κ ν : Type} [BEq κ] (m : List (κ × ν)) (k : κ) (v : ν) : List (κ × ν) :=
  if assocHas m k then m.map (fun p => if p.1 == k then (k, v) else p) else m ++ [(k, v)]

/-- JavaScript `map.delete(key)`. -/
def assocDelete {κ ν : Type} [BEq κ] (m : List (κ × ν)) (k : κ) : List (κ × ν) :=
  m.filter (fun p => !(p.1 == k))

/-- The key list of a dictionary. -/
def assocKeys {κ ν : Type} (m : List (κ × ν)) : List κ := m.map (fun p => p.1)

/-- State threaded through `getFilesInfo` (src/massdedupe.ts:294-359):
the in-memory cache object `fileInfo`, the running counter `i`, the remote
stat calls issued so far as pairs (raw filepath, argument handed to the
client, which is `cleanupPath` of it), and the cache snapshots written by
`saveCacheData` in order. -/
structure ResolveState where
  fileInfo : List (String × Option FileStat)
  counter : Nat
  statCalls : List (String × String)
  saves : List (List (String × Option FileStat))
deriving Repr, DecidableEq

/-- Embeds one iteration of the inner loop of `getFilesInfo`
(src/massdedupe.ts:317-351): increment `i`; skip paths already in the cache;
at `i % 500 == 0` call `saveCacheData` (which writes only when caching is
enabled, src/massdedupe.ts:308-311); classify `files_trashbin` paths as
`false` without a remote call; otherwise stat `cleanupPath filepath` and
record the result, turning any error into `false`. -/
def resolveStep (cacheInfo : Bool) (stat : String → Except Unit FileStat)
    (st : ResolveState) (filepath : String) : ResolveState :=
  let n := st.counter + 1
  if assocHas st.fileInfo filepath then { st with counter := n }
  else
    let saves := if n % 500 == 0 && cacheInfo then st.saves ++ [st.fileInfo] else st.saves
    if strStartsWith filepath "files_trashbin" then
      { st with
        counter := n
        saves := saves
        fileInfo := assocSet st.fileInfo filepath none }
    else
      match stat (cleanupPath filepath) with
      | Except.ok info =>
        { st with
          counter := n
          saves := saves
          statCalls := st.statCalls ++ [(filepath, cleanupPath filepath)]
          fileInfo := assocSet st.fileInfo filepath (some info) }
      | Except.error _ =>
        { st with
          counter := n
          saves := saves
          statCalls := st.statCalls ++ [(filepath, cleanupPath filepath)]
          fileInfo := assocSet st.fileInfo filepath none }

/-- One full run of the resolution loop of `getFilesInfo` over the flattened
sequence of filepaths, starting from the cache loaded at startup
(src/massdedupe.ts:303-307), followed by the final `saveCacheData`
(src/massdedupe.ts:356). -/
def resolveRun (cacheInfo : Bool) (stat : String → Except Unit FileStat)
    (initCache : List (String × Option FileStat)) (paths : List String) : ResolveState :=
  let st := paths.foldl (resolveStep cacheInfo stat) ⟨initCache, 0, [], []⟩
  if cacheInfo then { st with saves := st.saves ++ [st.fileInfo] } else st

/-- Embeds `getFilesInfo` (src/massdedupe.ts:294-359): the two nested loops
over groups and files visit exactly the flattened filepath sequence with one
shared counter. -/
def getFilesInfo (cacheInfo : Bool) (stat : String → Except Unit FileStat)
    (initCache : List (String × Option FileStat)) (groups : List MediaDCGroup) : ResolveState :=
  resolveRun cacheInfo stat initCache
    ((groups.map (fun g => g.files.map (fun f => f.filepath))).flatten)

/-- Embeds the liveness filter of the group loop (src/massdedupe.ts:136-137):
keep files whose cache value is truthy (a stat object, not `false`). -/
def liveFiles (info : List (String × Option FileStat)) (files : List MediaDCFile) :
    List MediaDCFile :=
  files.filter (fun f =>
    match assocGet info f.filepath with
    | some (some _) => true
    | _ => false)

/-- The pattern test of the selector loop (src/massdedupe.ts:166-167, 181):
`upperCasePath.includes(e)` for some pattern of the list. -/
def pathMatches (pats : List String) (f : MediaDCFile) : Bool :=
  pats.any (fun e => strContains (strToUpper f.filepath) e)

/-- State of the selector scan (src/massdedupe.ts:162-164): the `toDelete`
map (fileid to reason), the running index `firstNonIncludedWithSameSize`
and the `keptOne` flag. -/
structure SelState where
  toDelete : List (Nat × String)
  firstNonIncludedWithSameSize : Nat
  keptOne : Bool
deriving Repr, DecidableEq

/-- Embeds one iteration of the selector scan (src/massdedupe.ts:165-199)
for the file at index `i` of the sorted list `files`. -/
def stepFile (exclude incl : List String) (files : List MediaDCFile)
    (st : SelState) (i : Nat) (file : MediaDCFile) : SelState :=
  if pathMatches exclude file then
    if st.keptOne then { st with toDelete := assocSet st.toDelete file.fileid "excluded-dupe" }
    else { st with keptOne := true }
  else if pathMatches incl file then
    let advance :=
      i == st.firstNonIncludedWithSameSize &&
        (match files[i + 1]? with
         | some nxt => file.filesize == nxt.filesize
         | none => false)
    { st with
      firstNonIncludedWithSameSize :=
        if advance then st.firstNonIncludedWithSameSize + 1
        else st.firstNonIncludedWithSameSize,
      toDelete := assocSet st.toDelete file.fileid "include" }
  else if i > st.firstNonIncludedWithSameSize then
    { st with toDelete := assocSet st.toDelete file.fileid "smaller" }
  else
    { st with keptOne := true }

/-- The selector scan from index `i` over the remaining suffix of the sorted
list (src/massdedupe.ts:165-199). -/
def selLoopAux (exclude incl : List String) (files : List MediaDCFile) :
    Nat → List MediaDCFile → SelState → SelState
  | _, [], st => st
  | i, f :: rest, st => selLoopAux exclude incl files (i + 1) rest (stepFile exclude incl files st i f)

/-- The full selector scan (src/massdedupe.ts:162-199). -/
def selLoop (exclude incl : List String) (files : List MediaDCFile) : SelState :=
  selLoopAux exclude incl files 0 files
    { toDelete := [], firstNonIncludedWithSameSize := 0, keptOne := false }

/-- Embeds the fallback keeper expression of the all-deleted correction
(src/massdedupe.ts:208-215):
`files[firstNonIncluded] || files[firstNonIncludedWithSameSize] || files[0]`,
with `findIndex` returning `-1` modelled as `none`. -/
def fallbackKeeper (incl : List String) (files : List MediaDCFile) (fnws : Nat) :
    Option MediaDCFile :=
  let firstNonIncluded := files.findIdx? (fun f => !(pathMatches incl f))
  ((firstNonIncluded.bind (fun j => files[j]?)).orElse (fun _ => files[fnws]?)).orElse
    (fun _ => files[0]?)

/-- Embeds the verdict computation for one sorted group
(src/massdedupe.ts:162-234): the scan, the all-deleted correction
(202-217), the none-deleted correction (219-230) and the sanity check
(232-234).  Returns `none` exactly where the source throws: when the
fallback keeper expression is `undefined` (the source would fail reading
`.fileid`) or when the sanity check fires. -/
def selectVerdicts (exclude incl : List String) (files : List MediaDCFile) :
    Option (List (Nat × String)) :=
  let st := selLoop exclude incl files
  let afterAllDeleted : Option (List (Nat × String)) :=
    if files.length == st.toDelete.length then
      match fallbackKeeper incl files st.firstNonIncludedWithSameSize with
      | some f => some (assocDelete st.toDelete f.fileid)
      | none => none
    else some st.toDelete
  match afterAllDeleted with
  | none => none
  | some td1 =>
    let td2 :=
      if td1.length == 0 then
        (files.drop 1).foldl (fun m f => assocSet m f.fileid "excluded-last") td1
      else td1
    if td2.length == files.length - 1 then some td2 else none

/-- Embeds the per-group processing of `main` (src/massdedupe.ts:131-234)
after the liveness filter: sort, skip groups with fewer than two live files
(no verdicts), otherwise run the selector. -/
def processGroup (exclude incl : List String) (live : List MediaDCFile) :
    Option (List (Nat × String)) :=
  let files := sortFiles live
  if files.length < 2 then some [] else selectVerdicts exclude incl files

/-- Length of the leading run of equal-size neighbours minus one, i.e. the
index of the last file of the first equal-size block; this is the value the
running index `firstNonIncludedWithSameSize` reaches when every file takes
the include branch. -/
def leadRun : List MediaDCFile → Nat
  | f :: g :: rest => if f.filesize == g.filesize then leadRun (g :: rest) + 1 else 0
  | _ => 0

/-- State of the deletion pass (src/massdedupe.ts:128-129, 252-259): the
summary counters `deleted` and `deletedSize`, the arguments handed to the
remote delete call, and the filepaths whose delete call threw (caught and
logged by `remove`, src/massdedupe.ts:82-89). -/
structure DelState where
  deleted : Nat
  deletedSize : Nat
  attempts : List String
  failures : List String
deriving Repr, DecidableEq

/-- Embeds `remove` (src/massdedupe.ts:74-90): clean the path, skip the
remote call under dry run, catch any error of the remote call. -/
def removeFile (dryRun : Bool) (del : String → Except Unit Unit)
    (st : DelState) (f : MediaDCFile) : DelState :=
  if dryRun then st
  else
    match del (cleanupPath f.filepath) with
    | Except.ok _ => { st with attempts := st.attempts ++ [cleanupPath f.filepath] }
    | Except.error _ =>
      { st with
        attempts := st.attempts ++ [cleanupPath f.filepath]
        failures := st.failures ++ [f.filepath] }

/-- One iteration of the deletion loop of `main` (src/massdedupe.ts:253-258):
files without a delete verdict are skipped; for the others the summary
counters are bumped before `remove` is awaited. -/
def delStep (dryRun : Bool) (del : String → Except Unit Unit)
    (toDelete : List (Nat × String)) (st : DelState) (f : MediaDCFile) : DelState :=
  if assocHas toDelete f.fileid then
    removeFile dryRun del
      { st with deleted := st.deleted + 1, deletedSize := st.deletedSize + f.filesize } f
  else st

/-- Embeds the deletion loop of `main` (src/massdedupe.ts:252-259). -/
def runDeletions (dryRun : Bool) (del : String → Except Unit Unit)
    (toDelete : List (Nat × String)) (files : List MediaDCFile) : DelState :=
  files.foldl (delStep dryRun del toDelete)
    { deleted := 0, deletedSize := 0, attempts := [], failures := [] }

/-- Invariant carried through the selector scan: the running index never
passes the current position `i` (and stays inside the list), it sits
strictly before `i` once a keeper exists, the `toDelete` map holds exactly
the scanned files minus the at-most-one keeper, and its keys are distinct
fileids of scanned files. -/
def SelInv (files : List MediaDCFile) (i : Nat) (st : SelState) : Prop :=
  st.firstNonIncludedWithSameSize ≤ i ∧
  (st.keptOne = true → st.firstNonIncludedWithSameSize < i) ∧
  (files.length ≠ 0 → st.firstNonIncludedWithSameSize < files.length) ∧
  st.toDelete.length + (if st.keptOne then 1 else 0) = i ∧
  (assocKeys st.toDelete).Nodup ∧
  assocKeys st.toDelete ⊆ (files.take i).map (fun f => f.fileid)

/-! ## Helper lemmas about the order, the dictionaries and the strings -/

theorem fileOrd_iff (a b : MediaDCFile) :
    FileOrd a b ↔ b.filesize < a.filesize ∨
      (a.filesize = b.filesize ∧ a.filepath.length ≤ b.filepath.length) := by
  unfold FileOrd fileCompare
  split
  · omega
  · split <;> omega

theorem assocHas_iff {κ ν : Type} [BEq κ] [LawfulBEq κ] (m : List (κ × ν)) (k : κ) :
    assocHas m k = true ↔ k ∈ assocKeys m := by
  simp [assocHas, assocKeys, List.any_eq_true, beq_iff_eq, List.mem_map]

theorem assocHas_eq_false_iff {κ ν : Type} [BEq κ] [LawfulBEq κ] (m : List (κ × ν)) (k : κ) :
    assocHas m k = false ↔ k ∉ assocKeys m := by
  rw [← Bool.not_eq_true, not_iff_not]
  exact assocHas_iff m k

theorem assocSet_fresh {κ ν : Type} [BEq κ] [LawfulBEq κ] (m : List (κ × ν)) (k : κ) (v : ν)
    (h : k ∉ assocKeys m) : assocSet m k v = m ++ [(k, v)] := by
  have hb : assocHas m k = false := (assocHas_eq_false_iff m k).mpr h
  simp [assocSet, hb]

theorem assocKeys_append {κ ν : Type} (m : List (κ × ν)) (k : κ) (v : ν) :
    assocKeys (m ++ [(k, v)]) = assocKeys m ++ [k] := by
  simp [assocKeys]

theorem assocKeys_length {κ ν : Type} (m : List (κ × ν)) :
    (assocKeys m).length = m.length := by
  simp [assocKeys]

theorem assocKeys_delete {κ ν : Type} [BEq κ] (m : List (κ × ν)) (k : κ) :
    assocKeys (assocDelete m k) = (assocKeys m).filter (fun x => !(x == k)) := by
  unfold assocKeys assocDelete
  rw [List.filter_map]
  rfl

theorem assocHas_delete_self {κ ν : Type} [BEq κ] [LawfulBEq κ] (m : List (κ × ν)) (k : κ) :
    assocHas (assocDelete m k) k = false := by
  rw [assocHas_eq_false_iff, assocKeys_delete]
  intro hmem
  have := List.of_mem_filter hmem
  simp at this

theorem assocDelete_spec {κ ν : Type} [BEq κ] [LawfulBEq κ] [DecidableEq κ]
    (m : List (κ × ν)) (k : κ)
    (hnd : (assocKeys m).Nodup) (hk : k ∈ assocKeys m) :
    (assocDelete m k).length + 1 = m.length ∧
    (assocKeys (assocDelete m k)).Nodup ∧
    assocKeys (assocDelete m k) ⊆ assocKeys m := by
  have hkd := assocKeys_delete m k
  refine ⟨?_, ?_, ?_⟩
  · have h1 : (assocDelete m k).length = (assocKeys (assocDelete m k)).length :=
      (assocKeys_length _).symm
    rw [h1, hkd]
    have hcong : (assocKeys m).filter (fun x => !(x == k))
        = (assocKeys m).filter (fun x => x != k) := rfl
    rw [hcong, ← List.Nodup.erase_eq_filter hnd]
    have h2 := List.length_erase_of_mem hk
    have h3 : ((assocKeys m).erase k).length = (assocKeys m).length - 1 := h2
    have h4 := assocKeys_length m
    have h5 : 1 ≤ (assocKeys m).length := List.length_pos.mpr (by
      intro hnil
      rw [hnil] at hk
      exact (List.not_mem_nil k) hk)
    omega
  · rw [hkd]
    exact hnd.filter _
  · rw [hkd]
    exact List.filter_subset' _

theorem assocKeys_set_of_has {κ ν : Type} [BEq κ] [LawfulBEq κ]
    (m : List (κ × ν)) (k : κ) (v : ν) (h : assocHas m k = true) :
    assocKeys (assocSet m k v) = assocKeys m := by
  unfold assocSet
  rw [if_pos h]
  unfold assocKeys
  rw [List.map_map]
  apply List.map_congr_left
  intro p _
  by_cases hp : p.1 = k
  · simp [hp]
  · simp [hp]

theorem assocHas_set_preserve {κ ν : Type} [BEq κ] [LawfulBEq κ]
    (m : List (κ × ν)) (k q : κ) (v : ν) (h : assocHas m q = true) :
    assocHas (assocSet m k v) q = true := by
  by_cases hk : assocHas m k = true
  · rw [assocHas_iff, assocKeys_set_of_has m k v hk]
    exact (assocHas_iff m q).1 h
  · have hf : assocHas m k = false := by
      cases hb : assocHas m k
      · rfl
      · exact absurd hb hk
    rw [assocSet_fresh m k v ((assocHas_eq_false_iff m k).1 hf), assocHas_iff, assocKeys_append]
    exact List.mem_append_left _ ((assocHas_iff m q).1 h)

theorem assocHas_set_self {κ ν : Type} [BEq κ] [LawfulBEq κ]
    (m : List (κ × ν)) (k : κ) (v : ν) :
    assocHas (assocSet m k v) k = true := by
  by_cases hk : assocHas m k = true
  · rw [assocHas_iff, assocKeys_set_of_has m k v hk]
    exact (assocHas_iff m k).1 hk
  · have hf : assocHas m k = false := by
      cases hb : assocHas m k
      · rfl
      · exact absurd hb hk
    rw [assocSet_fresh m k v ((assocHas_eq_false_iff m k).1 hf), assocHas_iff, assocKeys_append]
    exact List.mem_append_right _ (List.mem_singleton_self k)

theorem assocHas_set_ne {κ ν : Type} [BEq κ] [LawfulBEq κ]
    (m : List (κ × ν)) (k q : κ) (v : ν) (h : q ≠ k) :
    assocHas (assocSet m k v) q = assocHas m q := by
  by_cases hk : assocHas m k = true
  · cases hb : assocHas m q
    · cases hc : assocHas (assocSet m k v) q
      · rfl
      · exfalso
        have h1 := (assocHas_iff _ q).1 hc
        rw [assocKeys_set_of_has m k v hk] at h1
        have h2 := (assocHas_iff m q).2 h1
        rw [hb] at h2
        exact Bool.false_ne_true h2
    · exact assocHas_set_preserve m k q v hb
  · have hf : assocHas m k = false := by
      cases hb : assocHas m k
      · rfl
      · exact absurd hb hk
    cases hb : assocHas m q
    · rw [assocSet_fresh m k v ((assocHas_eq_false_iff m k).1 hf)]
      have hq := (assocHas_eq_false_iff m q).1 hb
      apply (assocHas_eq_false_iff _ q).2
      rw [assocKeys_append]
      intro hmem
      rcases List.mem_append.1 hmem with hmem | hmem
      · exact hq hmem
      · exact h (List.mem_singleton.1 hmem)
    · exact assocHas_set_preserve m k q v hb

theorem find_replace_ne {κ ν : Type} [BEq κ] [LawfulBEq κ] (k q : κ) (v : ν) (h : q ≠ k) :
    ∀ (m : List (κ × ν)),
      (m.map (fun p => if p.1 == k then (k, v) else p)).find? (fun p => p.1 == q)
        = m.find? (fun p => p.1 == q)
  | [] => rfl
  | p :: m => by
    by_cases hp : p.1 = k
    · have hkq : (k == q) = false := beq_eq_false_iff_ne.2 (fun he => h he.symm)
      have hpq : (p.1 == q) = false := beq_eq_false_iff_ne.2 (by rw [hp]; exact fun he => h he.symm)
      simp [List.find?_cons, hp, hkq, hpq, find_replace_ne k q v h m]
    · have hb : (p.1 == k) = false := beq_eq_false_iff_ne.2 hp
      cases hq : (p.1 == q) <;>
        simp [List.find?_cons, hb, hq, find_replace_ne k q v h m]

theorem find_replace_self {κ ν : Type} [BEq κ] [LawfulBEq κ] (k : κ) (v : ν) :
    ∀ (m : List (κ × ν)), assocHas m k = true →
      (m.map (fun p => if p.1 == k then (k, v) else p)).find? (fun p => p.1 == k)
        = some (k, v)
  | [], h => by simp [assocHas] at h
  | p :: m, h => by
    by_cases hp : p.1 = k
    · have hb : (p.1 == k) = true := beq_iff_eq.2 hp
      simp [List.find?_cons, hb]
    · have hb : (p.1 == k) = false := beq_eq_false_iff_ne.2 hp
      have hm : assocHas m k = true := by
        unfold assocHas at h
        rw [List.any_cons, hb, Bool.false_or] at h
        exact h
      simp [List.find?_cons, hb, find_replace_self k v m hm]

theorem assocGet_set_self {κ ν : Type} [BEq κ] [LawfulBEq κ]
    (m : List (κ × ν)) (k : κ) (v : ν) :
    assocGet (assocSet m k v) k = some v := by
  by_cases hk : assocHas m k = true
  · unfold assocSet
    rw [if_pos hk]
    unfold assocGet
    rw [find_replace_self k v m hk]
    rfl
  · have hf : assocHas m k = false := by
      cases hb : assocHas m k
      · rfl
      · exact absurd hb hk
    rw [assocSet_fresh m k v ((assocHas_eq_false_iff m k).1 hf)]
    unfold assocGet
    have hnone : m.find? (fun p => p.1 == k) = none := by
      rw [List.find?_eq_none]
      intro p hp hbe
      have : assocHas m k = true := by
        unfold assocHas
        rw [List.any_eq_true]
        exact ⟨p, hp, hbe⟩
      rw [hf] at this
      exact Bool.false_ne_true this
    rw [List.find?_append, hnone]
    simp [List.find?_cons]

theorem assocGet_set_ne {κ ν : Type} [BEq κ] [LawfulBEq κ]
    (m : List (κ × ν)) (k q : κ) (v : ν) (h : q ≠ k) :
    assocGet (assocSet m k v) q = assocGet m q := by
  by_cases hk : assocHas m k = true
  · unfold assocSet
    rw [if_pos hk]
    unfold assocGet
    rw [find_replace_ne k q v h m]
  · have hf : assocHas m k = false := by
      cases hb : assocHas m k
      · rfl
      · exact absurd hb hk
    rw [assocSet_fresh m k v ((assocHas_eq_false_iff m k).1 hf)]
    unfold assocGet
    rw [List.find?_append]
    have hkq : (k == q) = false := beq_eq_false_iff_ne.2 (fun he => h he.symm)
    cases hfind : m.find? (fun p => p.1 == q)
    · simp [List.find?_cons, hkq]
    · rfl

/-! ## Claim C3: the sort order of the selector -/

/-- C3, counterexample: the spec says equal-size files are tie-broken by
path length descending (longer path earlier), but on two equal-size files
the comparator of src/massdedupe.ts:142-151 puts the SHORTER path first:
the sorted output violates the spec-side order `specTieBreak`. -/
theorem c3_counterexample :
    ¬ (sortFiles [⟨1, "n", "bb", 7⟩, ⟨2, "n", "a", 7⟩]).Pairwise specTieBreak := by
  decide

/-- C3, amended: the selector sorts by size descending as primary key and,
for equal sizes, by logical-path length ASCENDING (the shorter path ordered
earlier), matching the program description "leaving only one file (bigger,
smaller path)". -/
theorem c3_sort_size_desc_then_pathlen_asc (l : List MediaDCFile) :
    (sortFiles l).Pairwise (fun a b => b.filesize < a.filesize ∨
      (a.filesize = b.filesize ∧ a.filepath.length ≤ b.filepath.length)) := by
  have h := List.sorted_insertionSort FileOrd l
  exact List.Pairwise.imp (fun hab => (fileOrd_iff _ _).1 hab) h

/-! ## Claim C4: the deletion executor -/

theorem removeFile_counters (del : String → Except Unit Unit) (st : DelState) (f : MediaDCFile) :
    (removeFile false del st f).deleted = st.deleted ∧
    (removeFile false del st f).deletedSize = st.deletedSize ∧
    (removeFile false del st f).attempts.length = st.attempts.length + 1 := by
  unfold removeFile
  cases del (cleanupPath f.filepath) <;> simp

theorem runDel_general (del : String → Except Unit Unit) (td : List (Nat × String)) :
    ∀ (files : List MediaDCFile) (st : DelState),
      ((files.foldl (delStep false del td) st).deleted
          = st.deleted + (files.filter (fun f => assocHas td f.fileid)).length) ∧
      ((files.foldl (delStep false del td) st).deletedSize
          = st.deletedSize + ((files.filter (fun f => assocHas td f.fileid)).map
              (fun f => f.filesize)).sum) ∧
      ((files.foldl (delStep false del td) st).attempts.length
          = st.attempts.length + (files.filter (fun f => assocHas td f.fileid)).length)
  | [], st => by simp
  | f :: files, st => by
    cases hf : assocHas td f.fileid
    · have hstep : delStep false del td st f = st := by
        simp [delStep, hf]
      have hfil : (f :: files).filter (fun g => assocHas td g.fileid)
          = files.filter (fun g => assocHas td g.fileid) := by
        simp [List.filter_cons, hf]
      rw [List.foldl_cons, hstep, hfil]
      exact runDel_general del td files st
    · have hstep : delStep false del td st f
          = removeFile false del
              { st with deleted := st.deleted + 1, deletedSize := st.deletedSize + f.filesize } f := by
        simp [delStep, hf]
      have hfil : (f :: files).filter (fun g => assocHas td g.fileid)
          = f :: files.filter (fun g => assocHas td g.fileid) := by
        simp [List.filter_cons, hf]
      rw [List.foldl_cons, hstep, hfil]
      obtain ⟨h1, h2, h3⟩ := removeFile_counters del
        { st with deleted := st.deleted + 1, deletedSize := st.deletedSize + f.filesize } f
      obtain ⟨g1, g2, g3⟩ := runDel_general del td files
        (removeFile false del
          { st with deleted := st.deleted + 1, deletedSize := st.deletedSize + f.filesize } f)
      rw [g1, g2, g3, h1, h2, h3]
      refine ⟨by simp; omega, ?_, by simp; omega⟩
      simp
      omega

/-- C4, counterexample: in a 3-file group with two delete verdicts where the
remote delete throws for "b", both deletions are still attempted (the run
does not abort) but the summary counters `deleted`/`deletedSize` count the
FAILED file too (2 files, 11 bytes), whereas the claim says only the
successful deletion (1 file, 5 bytes) is counted. -/
theorem c4_counterexample :
    (runDeletions false (fun p => if p == "b" then Except.error () else Except.ok ())
        [(2, "smaller"), (3, "smaller")]
        [⟨1, "n", "a", 10⟩, ⟨2, "n", "b", 6⟩, ⟨3, "n", "c", 5⟩]).attempts = ["b", "c"] ∧
    (runDeletions false (fun p => if p == "b" then Except.error () else Except.ok ())
        [(2, "smaller"), (3, "smaller")]
        [⟨1, "n", "a", 10⟩, ⟨2, "n", "b", 6⟩, ⟨3, "n", "c", 5⟩]).failures = ["b"] ∧
    (runDeletions false (fun p => if p == "b" then Except.error () else Except.ok ())
        [(2, "smaller"), (3, "smaller")]
        [⟨1, "n", "a", 10⟩, ⟨2, "n", "b", 6⟩, ⟨3, "n", "c", 5⟩]).deleted = 2 ∧
    (runDeletions false (fun p => if p == "b" then Except.error () else Except.ok ())
        [(2, "smaller"), (3, "smaller")]
        [⟨1, "n", "a", 10⟩, ⟨2, "n", "b", 6⟩, ⟨3, "n", "c", 5⟩]).deletedSize = 11 := by
  refine ⟨?_, ?_, ?_, ?_⟩ <;> rfl

/-- C4, amended: a failed remote delete is caught inside `remove`, so every
file carrying a Delete verdict is attempted (deletions of the remaining
files proceed past a failure), and the run's summary count and byte total
reflect every ATTEMPTED deletion - each marked file and its size - whether
or not the remote call succeeded. -/
theorem c4_deletion_summary_counts_attempts (del : String → Except Unit Unit)
    (td : List (Nat × String)) (files : List MediaDCFile) :
    (runDeletions false del td files).deleted
        = (files.filter (fun f => assocHas td f.fileid)).length ∧
    (runDeletions false del td files).deletedSize
        = ((files.filter (fun f => assocHas td f.fileid)).map (fun f => f.filesize)).sum ∧
    (runDeletions false del td files).attempts.length
        = (files.filter (fun f => assocHas td f.fileid)).length := by
  have h := runDel_general del td files
    { deleted := 0, deletedSize := 0, attempts := [], failures := [] }
  simpa using h

/-! ## Resolver lemmas -/

theorem resolveStep_hit (ci : Bool) (stat : String → Except Unit FileStat)
    (st : ResolveState) (p : String) (h : assocHas st.fileInfo p = true) :
    resolveStep ci stat st p = { st with counter := st.counter + 1 } := by
  simp [resolveStep, h]

theorem resolveStep_miss_fields (ci : Bool) (stat : String → Except Unit FileStat)
    (st : ResolveState) (p : String) (hf : assocHas st.fileInfo p = false) :
    (∃ v, (resolveStep ci stat st p).fileInfo = assocSet st.fileInfo p v) ∧
    ((resolveStep ci stat st p).statCalls = st.statCalls ∨
      (resolveStep ci stat st p).statCalls = st.statCalls ++ [(p, cleanupPath p)]) := by
  by_cases htr : strStartsWith p "files_trashbin" = true
  · refine ⟨⟨none, ?_⟩, Or.inl ?_⟩ <;> simp [resolveStep, hf, htr]
  · cases hstat : stat (cleanupPath p) with
    | ok info =>
      refine ⟨⟨some info, ?_⟩, Or.inr ?_⟩ <;> simp [resolveStep, hf, htr, hstat]
    | error e =>
      refine ⟨⟨none, ?_⟩, Or.inr ?_⟩ <;> simp [resolveStep, hf, htr, hstat]

theorem resolveFold_preserves (ci : Bool) (stat : String → Except Unit FileStat) (q : String) :
    ∀ (paths : List String) (st : ResolveState),
      assocHas st.fileInfo q = true →
      assocGet (paths.foldl (resolveStep ci stat) st).fileInfo q = assocGet st.fileInfo q ∧
      assocHas (paths.foldl (resolveStep ci stat) st).fileInfo q = true ∧
      ∀ c ∈ (paths.foldl (resolveStep ci stat) st).statCalls, c ∈ st.statCalls ∨ c.1 ≠ q
  | [], st, h => ⟨rfl, h, fun c hc => Or.inl hc⟩
  | p :: paths, st, h => by
    rw [List.foldl_cons]
    have hstep : assocGet (resolveStep ci stat st p).fileInfo q = assocGet st.fileInfo q ∧
        assocHas (resolveStep ci stat st p).fileInfo q = true ∧
        ∀ c ∈ (resolveStep ci stat st p).statCalls, c ∈ st.statCalls ∨ c.1 ≠ q := by
      by_cases hhit : assocHas st.fileInfo p = true
      · rw [resolveStep_hit ci stat st p hhit]
        exact ⟨rfl, h, fun c hc => Or.inl hc⟩
      · have hmiss : assocHas st.fileInfo p = false := by
          cases hb : assocHas st.fileInfo p
          · rfl
          · exact absurd hb hhit
        have hpq : p ≠ q := fun he => hhit (he ▸ h)
        obtain ⟨⟨v, hv⟩, hcalls⟩ := resolveStep_miss_fields ci stat st p hmiss
        refine ⟨?_, ?_, ?_⟩
        · rw [hv]
          exact assocGet_set_ne st.fileInfo p q v (Ne.symm hpq)
        · rw [hv]
          exact assocHas_set_preserve st.fileInfo p q v h
        · intro c hc
          rcases hcalls with hcalls | hcalls
          · rw [hcalls] at hc
            exact Or.inl hc
          · rw [hcalls] at hc
            rcases List.mem_append.1 hc with hc | hc
            · exact Or.inl hc
            · right
              rw [List.mem_singleton.1 hc]
              exact hpq
    obtain ⟨h1, h2, h3⟩ := hstep
    obtain ⟨g1, g2, g3⟩ := resolveFold_preserves ci stat q paths (resolveStep ci stat st p) h2
    refine ⟨g1.trans h1, g2, ?_⟩
    intro c hc
    rcases g3 c hc with hc2 | hc2
    · exact h3 c hc2
    · exact Or.inr hc2

/-! ## Claim C6: cache idempotence of the resolver -/

/-- C6, confirmed: a path already present in the loaded cache (whatever its
stored value, a stat snapshot or `false`) is skipped by the resolution loop:
no remote stat call originates from it and its cache entry is unchanged at
the end of the run. -/
theorem c6_resolver_idempotent_for_cached (cacheInfo : Bool)
    (stat : String → Except Unit FileStat)
    (initCache : List (String × Option FileStat)) (paths : List String) (p : String)
    (hp : assocHas initCache p = true) :
    (∀ c ∈ (resolveRun cacheInfo stat initCache paths).statCalls, c.1 ≠ p) ∧
    assocGet (resolveRun cacheInfo stat initCache paths).fileInfo p = assocGet initCache p := by
  obtain ⟨h1, h2, h3⟩ :=
    resolveFold_preserves cacheInfo stat p paths ⟨initCache, 0, [], []⟩ hp
  have hfields : (resolveRun cacheInfo stat initCache paths).statCalls
      = (paths.foldl (resolveStep cacheInfo stat) ⟨initCache, 0, [], []⟩).statCalls ∧
      (resolveRun cacheInfo stat initCache paths).fileInfo
      = (paths.foldl (resolveStep cacheInfo stat) ⟨initCache, 0, [], []⟩).fileInfo := by
    unfold resolveRun
    cases cacheInfo <;> simp
  obtain ⟨hc, hf⟩ := hfields
  constructor
  · intro c hcmem
    rw [hc] at hcmem
    rcases h3 c hcmem with hin | hne
    · exact absurd hin (List.not_mem_nil c)
    · exact hne
  · rw [hf]
    exact h1

theorem c6_resolver_idempotent_for_cached_witness :
    (∀ c ∈ (resolveRun true (fun _ => Except.ok ⟨3⟩) [("p", none)] ["p", "q"]).statCalls,
        c.1 ≠ "p") ∧
    assocGet (resolveRun true (fun _ => Except.ok ⟨3⟩) [("p", none)] ["p", "q"]).fileInfo "p"
      = assocGet [("p", none)] "p" :=
  c6_resolver_idempotent_for_cached true (fun _ => Except.ok ⟨3⟩) [("p", none)] ["p", "q"] "p"
    (by decide)

/-! ## Claim C9: persistence of transiently failed lookups -/

theorem resolveFold_records_failure (ci : Bool) (stat : String → Except Unit FileStat)
    (p : String)
    (htrash : strStartsWith p "files_trashbin" = false)
    (hfail : stat (cleanupPath p) = Except.error ()) :
    ∀ (paths : List String) (st : ResolveState),
      p ∈ paths → assocHas st.fileInfo p = false →
      assocGet (paths.foldl (resolveStep ci stat) st).fileInfo p = some none ∧
      assocHas (paths.foldl (resolveStep ci stat) st).fileInfo p = true
  | [], st, hmem, _ => absurd hmem (List.not_mem_nil p)
  | q :: paths, st, hmem, hmiss => by
    rw [List.foldl_cons]
    by_cases hqp : q = p
    · subst hqp
      have hstep : (resolveStep ci stat st q).fileInfo = assocSet st.fileInfo q none := by
        simp [resolveStep, hmiss, htrash, hfail]
      have hget : assocGet (resolveStep ci stat st q).fileInfo q = some none := by
        rw [hstep]
        exact assocGet_set_self st.fileInfo q none
      have hhas : assocHas (resolveStep ci stat st q).fileInfo q = true := by
        rw [hstep]
        exact assocHas_set_self st.fileInfo q none
      obtain ⟨g1, g2, _⟩ :=
        resolveFold_preserves ci stat q paths (resolveStep ci stat st q) hhas
      exact ⟨g1.trans hget, g2⟩
    · have hmem2 : p ∈ paths := by
        rcases List.mem_cons.1 hmem with he | hm
        · exact absurd he.symm hqp
        · exact hm
      have hmiss2 : assocHas (resolveStep ci stat st q).fileInfo p = false := by
        by_cases hhit : assocHas st.fileInfo q = true
        · rw [resolveStep_hit ci stat st q hhit]
          exact hmiss
        · have hqmiss : assocHas st.fileInfo q = false := by
            cases hb : assocHas st.fileInfo q
            · rfl
            · exact absurd hb hhit
          obtain ⟨⟨v, hv⟩, _⟩ := resolveStep_miss_fields ci stat st q hqmiss
          rw [hv, assocHas_set_ne st.fileInfo q p v (fun he => hqp he.symm)]
          exact hmiss
      exact resolveFold_records_failure ci stat p htrash hfail paths
        (resolveStep ci stat st q) hmem2 hmiss2

/-- C9, counterexample: a run whose stat call fails for "a" records the
entry `("a", false)`, persists it in the final cache snapshot, and a
subsequent run loading that snapshot issues ZERO stat calls for "a" - the
path is served from the cache, not re-queried as the claim states. -/
theorem c9_counterexample :
    assocGet (resolveRun true (fun _ => Except.error ()) [] ["a"]).fileInfo "a" = some none ∧
    (resolveRun true (fun _ => Except.error ()) [] ["a"]).saves = [[("a", none)]] ∧
    (resolveRun true (fun _ => Except.ok ⟨5⟩)
        (resolveRun true (fun _ => Except.error ()) [] ["a"]).fileInfo ["a"]).statCalls = [] := by
  exact ⟨rfl, rfl, rfl⟩

/-- C9, amended: a path whose remote status query fails transiently is
recorded as `false` (Absent) in the cache, that terminal entry IS persisted
in the end-of-run snapshot, and every subsequent run starting from that
snapshot serves the path from the cache - zero stat calls for it - leaving
the entry `false`. -/
theorem c9_failed_stat_persisted_not_requeried
    (stat1 stat2 : String → Except Unit FileStat)
    (initCache : List (String × Option FileStat)) (paths : List String) (p : String)
    (hmem : p ∈ paths)
    (hmiss : assocHas initCache p = false)
    (htrash : strStartsWith p "files_trashbin" = false)
    (hfail : stat1 (cleanupPath p) = Except.error ()) :
    assocGet (resolveRun true stat1 initCache paths).fileInfo p = some none ∧
    (resolveRun true stat1 initCache paths).saves.getLast?
      = some (resolveRun true stat1 initCache paths).fileInfo ∧
    (∀ c ∈ (resolveRun true stat2
        (resolveRun true stat1 initCache paths).fileInfo paths).statCalls, c.1 ≠ p) ∧
    assocGet (resolveRun true stat2
        (resolveRun true stat1 initCache paths).fileInfo paths).fileInfo p = some none := by
  obtain ⟨h1, h2⟩ := resolveFold_records_failure true stat1 p htrash hfail paths
    ⟨initCache, 0, [], []⟩ hmem hmiss
  have hrun1 : (resolveRun true stat1 initCache paths).fileInfo
      = (paths.foldl (resolveStep true stat1) ⟨initCache, 0, [], []⟩).fileInfo := by
    unfold resolveRun
    simp
  have hlast : (resolveRun true stat1 initCache paths).saves.getLast?
      = some (resolveRun true stat1 initCache paths).fileInfo := by
    unfold resolveRun
    simp [List.getLast?_concat]
  have hhas1 : assocHas (resolveRun true stat1 initCache paths).fileInfo p = true := by
    rw [hrun1]
    exact h2
  obtain ⟨g1, g2, g3⟩ := resolveFold_preserves true stat2 p paths
    ⟨(resolveRun true stat1 initCache paths).fileInfo, 0, [], []⟩ hhas1
  have hfields2 : (resolveRun true stat2
        (resolveRun true stat1 initCache paths).fileInfo paths).statCalls
      = (paths.foldl (resolveStep true stat2)
          ⟨(resolveRun true stat1 initCache paths).fileInfo, 0, [], []⟩).statCalls ∧
      (resolveRun true stat2
        (resolveRun true stat1 initCache paths).fileInfo paths).fileInfo
      = (paths.foldl (resolveStep true stat2)
          ⟨(resolveRun true stat1 initCache paths).fileInfo, 0, [], []⟩).fileInfo := by
    unfold resolveRun
    simp
  obtain ⟨hc2, hf2⟩ := hfields2
  refine ⟨by rw [hrun1]; exact h1, hlast, ?_, ?_⟩
  · intro c hcmem
    rw [hc2] at hcmem
    rcases g3 c hcmem with hin | hne
    · exact absurd hin (List.not_mem_nil c)
    · exact hne
  · rw [hf2, g1, hrun1]
    exact h1

theorem c9_failed_stat_persisted_not_requeried_witness :
    assocGet (resolveRun true (fun _ => Except.error ()) [] ["x"]).fileInfo "x" = some none ∧
    (resolveRun true (fun _ => Except.error ()) [] ["x"]).saves.getLast?
      = some (resolveRun true (fun _ => Except.error ()) [] ["x"]).fileInfo ∧
    (∀ c ∈ (resolveRun true (fun _ => Except.ok ⟨1⟩)
        (resolveRun true (fun _ => Except.error ()) [] ["x"]).fileInfo ["x"]).statCalls,
        c.1 ≠ "x") ∧
    assocGet (resolveRun true (fun _ => Except.ok ⟨1⟩)
        (resolveRun true (fun _ => Except.error ()) [] ["x"]).fileInfo ["x"]).fileInfo "x"
      = some none :=
  c9_failed_stat_persisted_not_requeried (fun _ => Except.error ()) (fun _ => Except.ok ⟨1⟩)
    [] ["x"] "x" (by decide) (by decide) (by decide) rfl

/-! ## Claim C8: path normalization and the cache key space -/

theorem resolveFold_keys_calls (ci : Bool) (stat : String → Except Unit FileStat) :
    ∀ (paths : List String) (st : ResolveState),
      (∀ k, assocHas (paths.foldl (resolveStep ci stat) st).fileInfo k = true →
        assocHas st.fileInfo k = true ∨ k ∈ paths) ∧
      (∀ c ∈ (paths.foldl (resolveStep ci stat) st).statCalls,
        c ∈ st.statCalls ∨ (c.2 = cleanupPath c.1 ∧ c.1 ∈ paths))
  | [], st => ⟨fun _ h => Or.inl h, fun _ hc => Or.inl hc⟩
  | p :: paths, st => by
    rw [List.foldl_cons]
    obtain ⟨ih1, ih2⟩ := resolveFold_keys_calls ci stat paths (resolveStep ci stat st p)
    constructor
    · intro k hk
      rcases ih1 k hk with h1 | h1
      · by_cases hhit : assocHas st.fileInfo p = true
        · rw [resolveStep_hit ci stat st p hhit] at h1
          exact Or.inl h1
        · have hmiss : assocHas st.fileInfo p = false := by
            cases hb : assocHas st.fileInfo p
            · rfl
            · exact absurd hb hhit
          obtain ⟨⟨v, hv⟩, _⟩ := resolveStep_miss_fields ci stat st p hmiss
          rw [hv] at h1
          by_cases hkp : k = p
          · exact Or.inr (by rw [hkp]; exact List.mem_cons_self p paths)
          · rw [assocHas_set_ne st.fileInfo p k v hkp] at h1
            exact Or.inl h1
      · exact Or.inr (List.mem_cons_of_mem p h1)
    · intro c hc
      rcases ih2 c hc with h1 | h1
      · by_cases hhit : assocHas st.fileInfo p = true
        · rw [resolveStep_hit ci stat st p hhit] at h1
          exact Or.inl h1
        · have hmiss : assocHas st.fileInfo p = false := by
            cases hb : assocHas st.fileInfo p
            · rfl
            · exact absurd hb hhit
          obtain ⟨_, hcalls⟩ := resolveStep_miss_fields ci stat st p hmiss
          rcases hcalls with hc2 | hc2
          · rw [hc2] at h1
            exact Or.inl h1
          · rw [hc2] at h1
            rcases List.mem_append.1 h1 with h3 | h3
            · exact Or.inl h3
            · have h4 := List.mem_singleton.1 h3
              right
              rw [h4]
              exact ⟨rfl, List.mem_cons_self p paths⟩
      · exact Or.inr ⟨h1.1, List.mem_cons_of_mem p h1.2⟩

/-- C8, counterexample: for the input path "files/a.jpg" the stat client is
handed the normalized "a.jpg", but the cache entry is written under the RAW
key "files/a.jpg"; the normalized key is absent from the cache, so the
cache key space does NOT use the normalized form as the claim states. -/
theorem c8_counterexample :
    (resolveRun true (fun _ => Except.ok ⟨7⟩) [] ["files/a.jpg"]).fileInfo
      = [("files/a.jpg", some ⟨7⟩)] ∧
    (resolveRun true (fun _ => Except.ok ⟨7⟩) [] ["files/a.jpg"]).statCalls
      = [("files/a.jpg", "a.jpg")] ∧
    assocHas (resolveRun true (fun _ => Except.ok ⟨7⟩) [] ["files/a.jpg"]).fileInfo "a.jpg"
      = false ∧
    cleanupPath "files/a.jpg" = "a.jpg" :=
  ⟨rfl, rfl, rfl, rfl⟩

/-- C8, amended: normalization is applied exactly where a path is handed to
the Remote Status Client (every stat call's argument is `cleanupPath` of the
raw filepath that triggered it), while the cache key space uses the RAW
logical paths of the input: every cache key is an initial-cache key or one
of the input paths, unnormalized. -/
theorem c8_cache_keys_raw_client_args_normalized (cacheInfo : Bool)
    (stat : String → Except Unit FileStat)
    (initCache : List (String × Option FileStat)) (paths : List String) :
    (∀ k, assocHas (resolveRun cacheInfo stat initCache paths).fileInfo k = true →
      assocHas initCache k = true ∨ k ∈ paths) ∧
    (∀ c ∈ (resolveRun cacheInfo stat initCache paths).statCalls,
      c.2 = cleanupPath c.1 ∧ c.1 ∈ paths) := by
  obtain ⟨h1, h2⟩ := resolveFold_keys_calls cacheInfo stat paths ⟨initCache, 0, [], []⟩
  have hfields : (resolveRun cacheInfo stat initCache paths).statCalls
      = (paths.foldl (resolveStep cacheInfo stat) ⟨initCache, 0, [], []⟩).statCalls ∧
      (resolveRun cacheInfo stat initCache paths).fileInfo
      = (paths.foldl (resolveStep cacheInfo stat) ⟨initCache, 0, [], []⟩).fileInfo := by
    unfold resolveRun
    cases cacheInfo <;> simp
  obtain ⟨hc, hf⟩ := hfields
  constructor
  · intro k hk
    rw [hf] at hk
    exact h1 k hk
  · intro c hcmem
    rw [hc] at hcmem
    rcases h2 c hcmem with hin | hgood
    · exact absurd hin (List.not_mem_nil c)
    · exact hgood

theorem c8_cache_keys_raw_client_args_normalized_witness :
    (assocHas ([] : List (String × Option FileStat)) "files/a.jpg" = true ∨
      "files/a.jpg" ∈ ["files/a.jpg"]) ∧
    (("files/a.jpg", "a.jpg").2 = cleanupPath ("files/a.jpg", "a.jpg").1 ∧
      ("files/a.jpg", "a.jpg").1 ∈ ["files/a.jpg"]) :=
  ⟨(c8_cache_keys_raw_client_args_normalized true (fun _ => Except.ok ⟨7⟩) []
      ["files/a.jpg"]).1 "files/a.jpg" (by decide),
   (c8_cache_keys_raw_client_args_normalized true (fun _ => Except.ok ⟨7⟩) []
      ["files/a.jpg"]).2 ("files/a.jpg", "a.jpg") (by decide)⟩

/-! ## Claim C7: periodic cache persistence -/

theorem resolveStep_miss_saves_counter (ci : Bool) (stat : String → Except Unit FileStat)
    (st : ResolveState) (p : String) (hmiss : assocHas st.fileInfo p = false) :
    (resolveStep ci stat st p).saves
      = (if (st.counter + 1) % 500 == 0 && ci then st.saves ++ [st.fileInfo] else st.saves) ∧
    (resolveStep ci stat st p).counter = st.counter + 1 := by
  by_cases htr : strStartsWith p "files_trashbin" = true
  · constructor <;> simp [resolveStep, hmiss, htr]
  · cases hstat : stat (cleanupPath p) with
    | ok info => constructor <;> simp [resolveStep, hmiss, htr, hstat]
    | error e => constructor <;> simp [resolveStep, hmiss, htr, hstat]

theorem resolveFold_counter (ci : Bool) (stat : String → Except Unit FileStat) :
    ∀ (paths : List String) (st : ResolveState),
      (paths.foldl (resolveStep ci stat) st).counter = st.counter + paths.length
  | [], st => by simp
  | p :: paths, st => by
    rw [List.foldl_cons]
    have hc : (resolveStep ci stat st p).counter = st.counter + 1 := by
      by_cases hhit : assocHas st.fileInfo p = true
      · rw [resolveStep_hit ci stat st p hhit]
      · have hmiss : assocHas st.fileInfo p = false := by
          cases hb : assocHas st.fileInfo p
          · rfl
          · exact absurd hb hhit
        exact (resolveStep_miss_saves_counter ci stat st p hmiss).2
    rw [resolveFold_counter ci stat paths (resolveStep ci stat st p), hc]
    simp
    omega

theorem resolveFold_allMiss (stat : String → Except Unit FileStat) :
    ∀ (paths : List String) (st : ResolveState),
      paths.Nodup → (∀ p ∈ paths, assocHas st.fileInfo p = false) →
      (paths.foldl (resolveStep true stat) st).saves.length + st.counter / 500
        = st.saves.length + (st.counter + paths.length) / 500
  | [], st, _, _ => by simp
  | p :: paths, st, hnd, hmiss => by
    rw [List.foldl_cons]
    have hpmiss : assocHas st.fileInfo p = false := hmiss p (List.mem_cons_self p paths)
    obtain ⟨hsaves, hcount⟩ := resolveStep_miss_saves_counter true stat st p hpmiss
    have hmiss2 : ∀ q ∈ paths, assocHas (resolveStep true stat st p).fileInfo q = false := by
      intro q hq
      obtain ⟨⟨v, hv⟩, _⟩ := resolveStep_miss_fields true stat st p hpmiss
      rw [hv]
      have hqp : q ≠ p := fun he => (List.nodup_cons.1 hnd).1 (he ▸ hq)
      rw [assocHas_set_ne st.fileInfo p q v hqp]
      exact hmiss q (List.mem_cons_of_mem p hq)
    have ih := resolveFold_allMiss stat paths (resolveStep true stat st p)
      (List.nodup_cons.1 hnd).2 hmiss2
    rw [hcount] at ih
    have hdiv := Nat.succ_div st.counter 500
    by_cases hdvd : (st.counter + 1) % 500 = 0
    · have hb : ((st.counter + 1) % 500 == 0 && true) = true := by
        simp [hdvd]
      rw [hb] at hsaves
      have hdvd2 : 500 ∣ st.counter + 1 := Nat.dvd_iff_mod_eq_zero.2 hdvd
      rw [if_pos hdvd2] at hdiv
      have hlen : (resolveStep true stat st p).saves.length = st.saves.length + 1 := by
        rw [hsaves]
        simp
      rw [hlen] at ih
      have : (st.counter + (p :: paths).length) = (st.counter + 1) + paths.length := by
        simp
        omega
      rw [this]
      omega
    · have hb : ((st.counter + 1) % 500 == 0 && true) = false := by
        simp [hdvd]
      rw [hb] at hsaves
      have hdvd2 : ¬ 500 ∣ st.counter + 1 := fun hd =>
        hdvd (Nat.dvd_iff_mod_eq_zero.1 hd)
      rw [if_neg hdvd2] at hdiv
      have hlen : (resolveStep true stat st p).saves.length = st.saves.length := by
        rw [hsaves]
        simp
      rw [hlen] at ih
      have : (st.counter + (p :: paths).length) = (st.counter + 1) + paths.length := by
        simp
        omega
      rw [this]
      omega

theorem resolveFold_replicate_hit (ci : Bool) (stat : String → Except Unit FileStat)
    (p : String) :
    ∀ (n : Nat) (st : ResolveState), assocHas st.fileInfo p = true →
      (List.replicate n p).foldl (resolveStep ci stat) st
        = { st with counter := st.counter + n }
  | 0, st, _ => by simp
  | n + 1, st, h => by
    rw [List.replicate_succ, List.foldl_cons, resolveStep_hit ci stat st p h]
    rw [resolveFold_replicate_hit ci stat p n { st with counter := st.counter + 1 } h]
    simp
    omega

/-- C7, counterexample: a run over 500 processed lookups (the same filepath
referenced by 500 group entries; all but the first are cache hits) writes NO
batch snapshot at the i = 500 boundary - the boundary falls on a cached
file, whose `continue` precedes the save - so the only persisted snapshot is
the end-of-run one, and an interruption before the end would have lost every
entry, not at most 499. -/
theorem c7_counterexample :
    (resolveRun true (fun _ => Except.ok ⟨0⟩) [] (List.replicate 500 "a")).counter = 500 ∧
    (resolveRun true (fun _ => Except.ok ⟨0⟩) [] (List.replicate 500 "a")).saves.length = 1 := by
  have hrepl : (List.replicate 500 "a") = "a" :: List.replicate 499 "a" := rfl
  have hstep : resolveStep true (fun _ => Except.ok ⟨0⟩) ⟨[], 0, [], []⟩ "a"
      = ⟨[("a", some ⟨0⟩)], 1, [("a", "a")], []⟩ := by
    decide
  have hhas : assocHas ([("a", some (⟨0⟩ : FileStat))]) "a" = true := by decide
  have hfold : (List.replicate 500 "a").foldl (resolveStep true (fun _ => Except.ok ⟨0⟩))
      ⟨[], 0, [], []⟩ = ⟨[("a", some ⟨0⟩)], 500, [("a", "a")], []⟩ := by
    rw [hrepl, List.foldl_cons, hstep]
    rw [resolveFold_replicate_hit true (fun _ => Except.ok ⟨0⟩) "a" 499
      ⟨[("a", some ⟨0⟩)], 1, [("a", "a")], []⟩ hhas]
  have hrun : resolveRun true (fun _ => Except.ok ⟨0⟩) [] (List.replicate 500 "a")
      = ⟨[("a", some ⟨0⟩)], 500, [("a", "a")], [[("a", some ⟨0⟩)]]⟩ := by
    unfold resolveRun
    simp only [hfold]
    rfl
  exact ⟨by rw [hrun], by rw [hrun]; rfl⟩

/-- C7, amended: with caching enabled the resolver always persists the full
current snapshot once more at the end of resolution, and a batch snapshot is
written at the files whose running ordinal (counting cache hits) is a
multiple of 500 AND that are not served from the cache; in particular on a
run where no path is served from the cache a snapshot is persisted after
every 500th lookup plus once at the end.  A batch boundary falling on a
cached file skips that batch's save, so an interruption may lose more than
499 lookups' worth of entries. -/
theorem c7_batch_saves_all_miss (stat : String → Except Unit FileStat)
    (initCache : List (String × Option FileStat)) (paths : List String)
    (hnd : paths.Nodup) (hmiss : ∀ p ∈ paths, assocHas initCache p = false) :
    (resolveRun true stat initCache paths).saves.getLast?
      = some (resolveRun true stat initCache paths).fileInfo ∧
    (resolveRun true stat initCache paths).saves.length = paths.length / 500 + 1 := by
  have hall := resolveFold_allMiss stat paths ⟨initCache, 0, [], []⟩ hnd hmiss
  constructor
  · unfold resolveRun
    simp [List.getLast?_concat]
  · unfold resolveRun
    simp
    simp at hall
    omega

theorem c7_batch_saves_all_miss_witness :
    (resolveRun true (fun _ => Except.ok ⟨2⟩) [] ["a"]).saves.getLast?
      = some (resolveRun true (fun _ => Except.ok ⟨2⟩) [] ["a"]).fileInfo ∧
    (resolveRun true (fun _ => Except.ok ⟨2⟩) [] ["a"]).saves.length
      = (["a"] : List String).length / 500 + 1 :=
  c7_batch_saves_all_miss (fun _ => Except.ok ⟨2⟩) [] ["a"] (by decide) (by decide)

/-! ## Selector lemmas -/

theorem stepFile_excluded_dupe (exclude incl : List String) (files : List MediaDCFile)
    (st : SelState) (i : Nat) (f : MediaDCFile)
    (hex : pathMatches exclude f = true) (hko : st.keptOne = true) :
    stepFile exclude incl files st i f
      = { st with toDelete := assocSet st.toDelete f.fileid "excluded-dupe" } := by
  simp [stepFile, hex, hko]

theorem stepFile_excluded_keep (exclude incl : List String) (files : List MediaDCFile)
    (st : SelState) (i : Nat) (f : MediaDCFile)
    (hex : pathMatches exclude f = true) (hko : st.keptOne = false) :
    stepFile exclude incl files st i f = { st with keptOne := true } := by
  simp [stepFile, hex, hko]

theorem stepFile_include (exclude incl : List String) (files : List MediaDCFile)
    (st : SelState) (i : Nat) (f : MediaDCFile)
    (hex : pathMatches exclude f = false) (hinc : pathMatches incl f = true) :
    stepFile exclude incl files st i f
      = { st with
          firstNonIncludedWithSameSize :=
            if i == st.firstNonIncludedWithSameSize &&
                (match files[i + 1]? with
                 | some nxt => f.filesize == nxt.filesize
                 | none => false)
            then st.firstNonIncludedWithSameSize + 1
            else st.firstNonIncludedWithSameSize
          toDelete := assocSet st.toDelete f.fileid "include" } := by
  simp [stepFile, hex, hinc]

theorem stepFile_smaller (exclude incl : List String) (files : List MediaDCFile)
    (st : SelState) (i : Nat) (f : MediaDCFile)
    (hex : pathMatches exclude f = false) (hinc : pathMatches incl f = false)
    (hgt : i > st.firstNonIncludedWithSameSize) :
    stepFile exclude incl files st i f
      = { st with toDelete := assocSet st.toDelete f.fileid "smaller" } := by
  simp [stepFile, hex, hinc, hgt]

theorem stepFile_plain_keep (exclude incl : List String) (files : List MediaDCFile)
    (st : SelState) (i : Nat) (f : MediaDCFile)
    (hex : pathMatches exclude f = false) (hinc : pathMatches incl f = false)
    (hle : ¬ i > st.firstNonIncludedWithSameSize) :
    stepFile exclude incl files st i f = { st with keptOne := true } := by
  simp [stepFile, hex, hinc, hle]

theorem findIdx_lt_length {α : Type} (p : α → Bool) :
    ∀ (l : List α) (j : Nat), l.findIdx? p = some j → j < l.length
  | [], j, h => by simp [List.findIdx?] at h
  | a :: l, j, h => by
    rw [List.findIdx?_cons] at h
    cases hp : p a with
    | true =>
      rw [hp] at h
      simp at h
      simp
      omega
    | false =>
      rw [hp] at h
      simp at h
      obtain ⟨j2, hj2, hje⟩ := h
      have := findIdx_lt_length p l j2 hj2
      simp
      omega

theorem findIdx_none_of_all_false {α : Type} (p : α → Bool) :
    ∀ (l : List α), (∀ a ∈ l, p a = false) → l.findIdx? p = none
  | [], _ => rfl
  | a :: l, h => by
    rw [List.findIdx?_cons, h a (List.mem_cons_self a l)]
    simp [findIdx_none_of_all_false p l (fun b hb => h b (List.mem_cons_of_mem a hb))]

theorem fallbackKeeper_some (incl : List String) (files : List MediaDCFile) (fnws : Nat)
    (hfnws : fnws < files.length) :
    ∃ f, fallbackKeeper incl files fnws = some f ∧ f ∈ files := by
  unfold fallbackKeeper
  cases hidx : files.findIdx? (fun f => !(pathMatches incl f)) with
  | none =>
    have hget : files[fnws]? = some files[fnws] := List.getElem?_eq_getElem hfnws
    refine ⟨files[fnws], ?_, List.getElem_mem hfnws⟩
    simp [hidx, hget, Option.orElse]
  | some j =>
    have hj : j < files.length := findIdx_lt_length _ files j hidx
    have hget : files[j]? = some files[j] := List.getElem?_eq_getElem hj
    refine ⟨files[j], ?_, List.getElem_mem hj⟩
    simp [hidx, hget, Option.orElse]

theorem selLoopAux_inv (exclude incl : List String) (files : List MediaDCFile)
    (hnd : (files.map (fun f => f.fileid)).Nodup) :
    ∀ (rest : List MediaDCFile) (i : Nat) (st : SelState),
      files.drop i = rest → i ≤ files.length → SelInv files i st →
      SelInv files files.length (selLoopAux exclude incl files i rest st)
  | [], i, st, hdrop, hle, hinv => by
    have hlen : files.length ≤ i := by
      have hld := congrArg List.length hdrop
      simp [List.length_drop] at hld
      omega
    have hieq : i = files.length := le_antisymm hle hlen
    show SelInv files files.length st
    rw [← hieq]
    exact hinv
  | f :: rest, i, st, hdrop, hle, hinv => by
    obtain ⟨h1, h2, h3, h4, h5, h6⟩ := hinv
    have hlt : i < files.length := by
      have hld := congrArg List.length hdrop
      simp [List.length_drop] at hld
      omega
    have hgetf : files[i]? = some f := by
      have h0 : (files.drop i)[0]? = files[i + 0]? := List.getElem?_drop files i 0
      rw [hdrop] at h0
      simpa using h0.symm
    have hdrop2 : files.drop (i + 1) = rest := by
      have hdd : (files.drop i).drop 1 = files.drop (i + 1) := List.drop_drop 1 i files
      rw [hdrop] at hdd
      simpa using hdd.symm
    have htake : (files.take (i + 1)).map (fun g => g.fileid)
        = (files.take i).map (fun g => g.fileid) ++ [f.fileid] := by
      rw [List.take_succ, hgetf]
      simp
    have hfid_not_in : f.fileid ∉ (files.take i).map (fun g => g.fileid) := by
      intro hmem
      have hsplit : files.map (fun g => g.fileid)
          = (files.take i).map (fun g => g.fileid) ++ (files.drop i).map (fun g => g.fileid) := by
        rw [← List.map_append, List.take_append_drop]
      rw [hsplit] at hnd
      have hdisj := (List.nodup_append.1 hnd).2.2
      have hfin : f.fileid ∈ (files.drop i).map (fun g => g.fileid) := by
        rw [hdrop]
        exact List.mem_map_of_mem _ (List.mem_cons_self f rest)
      exact hdisj hmem hfin
    have hfresh : f.fileid ∉ assocKeys st.toDelete := fun hm => hfid_not_in (h6 hm)
    have hlen0 : files.length ≠ 0 := by omega
    -- the invariant survives one step
    have hinv2 : ∀ r : String,
        SelInv files (i + 1) { st with toDelete := assocSet st.toDelete f.fileid r } := by
      intro r
      rw [assocSet_fresh st.toDelete f.fileid r hfresh]
      refine ⟨by simp; omega, ?_, ?_, ?_, ?_, ?_⟩
      · intro hko
        have := h2 hko
        simp
        omega
      · intro _
        exact h3 hlen0
      · simp only [assocKeys_append]
        simp [List.length_append]
        omega
      · rw [assocKeys_append]
        rw [List.nodup_append]
        refine ⟨h5, List.nodup_singleton _, ?_⟩
        intro a ha hb
        rw [List.mem_singleton.1 hb] at ha
        exact hfresh ha
      · rw [assocKeys_append, htake]
        intro a ha
        rcases List.mem_append.1 ha with ha | ha
        · exact List.mem_append_left _ (h6 ha)
        · exact List.mem_append_right _ ha
    have hkeep_sub : assocKeys st.toDelete ⊆ (files.take (i + 1)).map (fun g => g.fileid) := by
      rw [htake]
      intro a ha
      exact List.mem_append_left _ (h6 ha)
    have hinv3 : SelInv files (i + 1) (stepFile exclude incl files st i f) := by
      by_cases hex : pathMatches exclude f = true
      · by_cases hko : st.keptOne = true
        · rw [stepFile_excluded_dupe exclude incl files st i f hex hko]
          have := hinv2 "excluded-dupe"
          refine ⟨this.1, ?_, this.2.2.1, ?_, this.2.2.2.2.1, this.2.2.2.2.2⟩
          · intro _
            have := h2 hko
            show st.firstNonIncludedWithSameSize < i + 1
            omega
          · have h41 := this.2.2.2.1
            simpa [hko] using h41
        · have hkof : st.keptOne = false := by
            cases hb : st.keptOne
            · rfl
            · exact absurd hb hko
          rw [stepFile_excluded_keep exclude incl files st i f hex hkof]
          refine ⟨by simp; omega, by intro _; simp; omega, by intro _; exact h3 hlen0, ?_,
            h5, hkeep_sub⟩
          rw [hkof] at h4
          simp at h4
          simp
          omega
      · have hexf : pathMatches exclude f = false := by
          cases hb : pathMatches exclude f
          · rfl
          · exact absurd hb hex
        by_cases hinc : pathMatches incl f = true
        · rw [stepFile_include exclude incl files st i f hexf hinc]
          have hbase := hinv2 "include"
          cases hadv : (i == st.firstNonIncludedWithSameSize &&
              (match files[i + 1]? with
               | some nxt => f.filesize == nxt.filesize
               | none => false)) with
          | false =>
            exact hbase
          | true =>
            have hadv2 := hadv
            rw [Bool.and_eq_true] at hadv2
            obtain ⟨hieq, hmatch⟩ := hadv2
            have hieq2 : i = st.firstNonIncludedWithSameSize := beq_iff_eq.mp hieq
            have hnext : i + 1 < files.length := by
              cases hnx : files[i + 1]? with
              | none =>
                rw [hnx] at hmatch
                simp at hmatch
              | some nxt =>
                have := List.getElem?_eq_some.1 hnx
                exact this.1
            refine ⟨by simp; omega, ?_, by intro _; simp; omega, ?_, hbase.2.2.2.2.1,
              hbase.2.2.2.2.2⟩
            · intro hko
              have := h2 hko
              omega
            · have h41 := hbase.2.2.2.1
              simpa using h41
        · have hincf : pathMatches incl f = false := by
            cases hb : pathMatches incl f
            · rfl
            · exact absurd hb hinc
          by_cases hgt : i > st.firstNonIncludedWithSameSize
          · rw [stepFile_smaller exclude incl files st i f hexf hincf hgt]
            exact hinv2 "smaller"
          · rw [stepFile_plain_keep exclude incl files st i f hexf hincf hgt]
            have hieq : i = st.firstNonIncludedWithSameSize := by omega
            have hkof : st.keptOne = false := by
              cases hb : st.keptOne
              · rfl
              · exfalso
                have := h2 hb
                omega
            refine ⟨by simp; omega, by intro _; simp; omega, by intro _; exact h3 hlen0, ?_,
              h5, hkeep_sub⟩
            rw [hkof] at h4
            simp at h4
            simp
            omega
    show SelInv files files.length
      (selLoopAux exclude incl files (i + 1) rest (stepFile exclude incl files st i f))
    exact selLoopAux_inv exclude incl files hnd rest (i + 1)
      (stepFile exclude incl files st i f) hdrop2 (by omega) hinv3

theorem selLoop_inv (exclude incl : List String) (files : List MediaDCFile)
    (hnd : (files.map (fun f => f.fileid)).Nodup) :
    SelInv files files.length (selLoop exclude incl files) := by
  apply selLoopAux_inv exclude incl files hnd files 0
    { toDelete := [], firstNonIncludedWithSameSize := 0, keptOne := false }
  · rfl
  · omega
  · refine ⟨Nat.le_refl 0, ?_, ?_, rfl, List.nodup_nil, ?_⟩
    · intro h
      exact absurd h (by simp)
    · intro h
      exact Nat.pos_of_ne_zero h
    · intro a ha
      exact absurd ha (by simp [assocKeys])

theorem length_filter_not_aux {α : Type} (p : α → Bool) :
    ∀ (l : List α), (l.filter (fun a => !(p a))).length + (l.filter p).length = l.length
  | [] => rfl
  | a :: l => by
    have ih := length_filter_not_aux p l
    cases hp : p a <;> simp [List.filter_cons, hp] <;> omega

theorem keepCount (files : List MediaDCFile) (m : List (Nat × String))
    (hnd : (files.map (fun f => f.fileid)).Nodup)
    (hknd : (assocKeys m).Nodup) (hsub : assocKeys m ⊆ files.map (fun f => f.fileid))
    (hlen : m.length + 1 = files.length) :
    (files.filter (fun f => !(assocHas m f.fileid))).length = 1 := by
  have hpred : ∀ f ∈ files,
      (!(assocHas m f.fileid)) = (!(decide (f.fileid ∈ assocKeys m))) := by
    intro f _
    by_cases hmem : f.fileid ∈ assocKeys m
    · rw [(assocHas_iff m f.fileid).2 hmem, decide_eq_true hmem]
    · rw [(assocHas_eq_false_iff m f.fileid).2 hmem, decide_eq_false hmem]
  rw [List.filter_congr hpred]
  have haux := length_filter_not_aux (fun f => decide (f.fileid ∈ assocKeys m)) files
  have hmemlen : (files.filter (fun f => decide (f.fileid ∈ assocKeys m))).length = m.length := by
    have h1 := @List.filter_map MediaDCFile Nat (fun x => decide (x ∈ assocKeys m))
      (fun f : MediaDCFile => f.fileid) files
    have hA : ((files.map (fun f => f.fileid)).filter
        (fun x => decide (x ∈ assocKeys m))).length
        = (files.filter (fun f => decide (f.fileid ∈ assocKeys m))).length := by
      rw [h1, List.length_map]
      rfl
    have hAnd : ((files.map (fun f => f.fileid)).filter
        (fun x => decide (x ∈ assocKeys m))).Nodup := hnd.filter _
    have hAsub : ((files.map (fun f => f.fileid)).filter
        (fun x => decide (x ∈ assocKeys m))) ⊆ assocKeys m := by
      intro x hx
      exact of_decide_eq_true (List.mem_filter.1 hx).2
    have hksubA : assocKeys m ⊆ ((files.map (fun f => f.fileid)).filter
        (fun x => decide (x ∈ assocKeys m))) := by
      intro x hx
      exact List.mem_filter.2 ⟨hsub hx, decide_eq_true hx⟩
    have hle1 := (hAnd.subperm hAsub).length_le
    have hle2 := (hknd.subperm hksubA).length_le
    have hkl := assocKeys_length m
    omega
  omega

theorem selectVerdicts_spec (exclude incl : List String) (files : List MediaDCFile)
    (hlen2 : 2 ≤ files.length) (hnd : (files.map (fun f => f.fileid)).Nodup) :
    ∃ m, selectVerdicts exclude incl files = some m ∧
      m.length + 1 = files.length ∧
      (assocKeys m).Nodup ∧
      assocKeys m ⊆ files.map (fun f => f.fileid) := by
  obtain ⟨hf1, hf2, hf3, hf4, hf5, hf6⟩ := selLoop_inv exclude incl files hnd
  rw [List.take_length] at hf6
  cases hko : (selLoop exclude incl files).keptOne
  · rw [hko] at hf4
    simp at hf4
    have hlen0 : files.length ≠ 0 := by omega
    have hfnws : (selLoop exclude incl files).firstNonIncludedWithSameSize < files.length :=
      hf3 hlen0
    obtain ⟨f, hkeep, hfmem⟩ := fallbackKeeper_some incl files
      (selLoop exclude incl files).firstNonIncludedWithSameSize hfnws
    have hperm : List.Perm (assocKeys (selLoop exclude incl files).toDelete)
        (files.map (fun g => g.fileid)) := by
      apply (hf5.subperm hf6).perm_of_length_le
      rw [List.length_map, assocKeys_length]
      omega
    have hfin : f.fileid ∈ assocKeys (selLoop exclude incl files).toDelete :=
      hperm.mem_iff.2 (List.mem_map_of_mem _ hfmem)
    obtain ⟨hd1, hd2, hd3⟩ := assocDelete_spec (selLoop exclude incl files).toDelete
      f.fileid hf5 hfin
    have hbeq : (files.length == (selLoop exclude incl files).toDelete.length) = true :=
      beq_iff_eq.2 hf4.symm
    have hne1 : ((assocDelete (selLoop exclude incl files).toDelete f.fileid).length == 0)
        = false := by
      rw [beq_eq_false_iff_ne]
      omega
    have hfin2 : ((assocDelete (selLoop exclude incl files).toDelete f.fileid).length
        == files.length - 1) = true := by
      rw [beq_iff_eq]
      omega
    refine ⟨assocDelete (selLoop exclude incl files).toDelete f.fileid, ?_, by omega, hd2,
      fun x hx => hf6 (hd3 hx)⟩
    simp [selectVerdicts, hbeq, hkeep, hne1, hfin2]
  · rw [hko] at hf4
    simp at hf4
    have hne : (files.length == (selLoop exclude incl files).toDelete.length) = false := by
      rw [beq_eq_false_iff_ne]
      omega
    have hne0 : ((selLoop exclude incl files).toDelete.length == 0) = false := by
      rw [beq_eq_false_iff_ne]
      omega
    have hok : ((selLoop exclude incl files).toDelete.length == files.length - 1) = true := by
      rw [beq_iff_eq]
      omega
    refine ⟨(selLoop exclude incl files).toDelete, ?_, by omega, hf5, hf6⟩
    simp [selectVerdicts, hne, hne0, hok]

/-! ## Claim C1: the single-survivor invariant and the sanity check -/

/-- C1, confirmed: for any exclude/include pattern lists and any group of at
least two live files with distinct fileids, the selector (sort, scan, the
two fallback passes) returns verdicts - the sanity check never fires and the
fallback keeper expression never dereferences `undefined`, which is what
`= some m` states - with exactly N-1 files marked Delete and exactly one
file (the one whose fileid carries no delete mark) kept. -/
theorem c1_selector_single_survivor (exclude incl : List String) (live : List MediaDCFile)
    (hlen : 2 ≤ live.length) (hnd : (live.map (fun f => f.fileid)).Nodup) :
    ∃ m, processGroup exclude incl live = some m ∧
      m.length = live.length - 1 ∧
      (live.filter (fun f => !(assocHas m f.fileid))).length = 1 := by
  have hperm : (sortFiles live).Perm live := List.perm_insertionSort _ _
  have hplen : (sortFiles live).length = live.length := hperm.length_eq
  have hnd2 : ((sortFiles live).map (fun f => f.fileid)).Nodup := by
    have hp2 : ((sortFiles live).map (fun f => f.fileid)).Perm
        (live.map (fun f => f.fileid)) := hperm.map _
    exact hp2.symm.nodup hnd
  obtain ⟨m, hm, hmlen, hknd, hksub⟩ :=
    selectVerdicts_spec exclude incl (sortFiles live) (by omega) hnd2
  have hnotlt : ¬ (sortFiles live).length < 2 := by omega
  refine ⟨m, ?_, by omega, ?_⟩
  · unfold processGroup
    rw [if_neg hnotlt]
    exact hm
  · have hcount := keepCount (sortFiles live) m hnd2 hknd hksub hmlen
    have hpf : ((sortFiles live).filter (fun f => !(assocHas m f.fileid))).Perm
        (live.filter (fun f => !(assocHas m f.fileid))) := hperm.filter _
    rw [← hpf.length_eq]
    exact hcount

theorem c1_selector_single_survivor_witness :
    ∃ m, processGroup ["X"] ["Y"] [⟨1, "n", "aa", 5⟩, ⟨2, "n", "b", 3⟩] = some m ∧
      m.length = ([⟨1, "n", "aa", 5⟩, ⟨2, "n", "b", 3⟩] : List MediaDCFile).length - 1 ∧
      (([⟨1, "n", "aa", 5⟩, ⟨2, "n", "b", 3⟩] : List MediaDCFile).filter
          (fun f => !(assocHas m f.fileid))).length = 1 :=
  c1_selector_single_survivor ["X"] ["Y"] [⟨1, "n", "aa", 5⟩, ⟨2, "n", "b", 3⟩]
    (by decide) (by decide)

/-! ## Claim C10: the running index stays in bounds -/

/-- C10, confirmed: over the sorted live list of a group, the running index
`firstNonIncludedWithSameSize` ends strictly below the list length, the
fallback expression of the all-deleted correction always selects an existing
file, and in the situation where that correction runs (every file marked)
the selected file's fileid does carry a delete mark, so the mark removal is
effective. -/
theorem c10_running_index_in_bounds (exclude incl : List String) (live : List MediaDCFile)
    (hlen : 1 ≤ live.length) (hnd : (live.map (fun f => f.fileid)).Nodup) :
    (selLoop exclude incl (sortFiles live)).firstNonIncludedWithSameSize
        < (sortFiles live).length ∧
    ∃ f, fallbackKeeper incl (sortFiles live)
          (selLoop exclude incl (sortFiles live)).firstNonIncludedWithSameSize = some f ∧
      ((selLoop exclude incl (sortFiles live)).toDelete.length = (sortFiles live).length →
        assocHas (selLoop exclude incl (sortFiles live)).toDelete f.fileid = true) := by
  have hperm : (sortFiles live).Perm live := List.perm_insertionSort _ _
  have hplen : (sortFiles live).length = live.length := hperm.length_eq
  have hnd2 : ((sortFiles live).map (fun f => f.fileid)).Nodup := by
    have hp2 : ((sortFiles live).map (fun f => f.fileid)).Perm
        (live.map (fun f => f.fileid)) := hperm.map _
    exact hp2.symm.nodup hnd
  obtain ⟨hf1, hf2, hf3, hf4, hf5, hf6⟩ := selLoop_inv exclude incl (sortFiles live) hnd2
  rw [List.take_length] at hf6
  have hlen0 : (sortFiles live).length ≠ 0 := by omega
  have hfnws := hf3 hlen0
  obtain ⟨f, hkeep, hfmem⟩ := fallbackKeeper_some incl (sortFiles live)
    (selLoop exclude incl (sortFiles live)).firstNonIncludedWithSameSize hfnws
  refine ⟨hfnws, f, hkeep, ?_⟩
  intro hall
  have hperm2 : List.Perm (assocKeys (selLoop exclude incl (sortFiles live)).toDelete)
      ((sortFiles live).map (fun g => g.fileid)) := by
    apply (hf5.subperm hf6).perm_of_length_le
    rw [List.length_map, assocKeys_length]
    omega
  exact (assocHas_iff _ _).2 (hperm2.mem_iff.2 (List.mem_map_of_mem _ hfmem))

theorem c10_running_index_in_bounds_witness :
    SelState.firstNonIncludedWithSameSize
        (selLoop ["X"] ["Y"] (sortFiles [⟨1, "n", "aa", 5⟩, ⟨2, "n", "b", 3⟩]))
        < (sortFiles [⟨1, "n", "aa", 5⟩, ⟨2, "n", "b", 3⟩]).length ∧
    ∃ f, fallbackKeeper ["Y"] (sortFiles [⟨1, "n", "aa", 5⟩, ⟨2, "n", "b", 3⟩])
          (SelState.firstNonIncludedWithSameSize
            (selLoop ["X"] ["Y"] (sortFiles [⟨1, "n", "aa", 5⟩, ⟨2, "n", "b", 3⟩])))
          = some f ∧
      ((SelState.toDelete
            (selLoop ["X"] ["Y"] (sortFiles [⟨1, "n", "aa", 5⟩, ⟨2, "n", "b", 3⟩]))).length
          = (sortFiles [⟨1, "n", "aa", 5⟩, ⟨2, "n", "b", 3⟩]).length →
        assocHas (SelState.toDelete
            (selLoop ["X"] ["Y"] (sortFiles [⟨1, "n", "aa", 5⟩, ⟨2, "n", "b", 3⟩])))
          f.fileid = true) :=
  c10_running_index_in_bounds ["X"] ["Y"] [⟨1, "n", "aa", 5⟩, ⟨2, "n", "b", 3⟩]
    (by decide) (by decide)

/-! ## Claim C2: two-file groups with one excluded file -/

/-- C2, counterexample: two live files, exactly one (fileid 2) matching the
exclude pattern, no include patterns; the non-excluded file is larger so it
sorts first and becomes the implicit keeper, and the EXCLUDED file receives
the Delete verdict "excluded-dupe" - the claim's "regardless of which of the
two comes first in the sorted order" fails. -/
theorem c2_counterexample :
    pathMatches ["KEEP"] ⟨2, "n", "keep/x", 5⟩ = true ∧
    pathMatches ["KEEP"] ⟨1, "n", "b", 10⟩ = false ∧
    sortFiles [⟨2, "n", "keep/x", 5⟩, ⟨1, "n", "b", 10⟩]
      = [⟨1, "n", "b", 10⟩, ⟨2, "n", "keep/x", 5⟩] ∧
    processGroup ["KEEP"] [] [⟨2, "n", "keep/x", 5⟩, ⟨1, "n", "b", 10⟩]
      = some [(2, "excluded-dupe")] := by
  exact ⟨rfl, rfl, rfl, rfl⟩

/-- C2, amended: in a group of two live files where exactly one matches an
Exclude pattern and no Include pattern matches either file, the verdict
depends on the sorted order: if the excluded file sorts first it is kept and
the other file is deleted with reason "smaller"; if the non-excluded file
sorts first, that file is kept as the implicit keeper and the excluded file
is deleted with reason "excluded-dupe". -/
theorem c2_two_file_exclude (exclude incl : List String) (live : List MediaDCFile)
    (a b : MediaDCFile) (hsort : sortFiles live = [a, b])
    (hinca : pathMatches incl a = false) (hincb : pathMatches incl b = false) :
    (pathMatches exclude a = true → pathMatches exclude b = false →
      processGroup exclude incl live = some [(b.fileid, "smaller")]) ∧
    (pathMatches exclude a = false → pathMatches exclude b = true →
      processGroup exclude incl live = some [(b.fileid, "excluded-dupe")]) := by
  constructor
  · intro ha hb
    unfold processGroup
    rw [hsort]
    simp [selectVerdicts, selLoop, selLoopAux, stepFile, ha, hb, hinca, hincb,
      assocSet, assocHas, assocDelete]
  · intro ha hb
    unfold processGroup
    rw [hsort]
    simp [selectVerdicts, selLoop, selLoopAux, stepFile, ha, hb, hinca, hincb,
      assocSet, assocHas, assocDelete]

theorem c2_two_file_exclude_witness :
    processGroup ["KEEP"] ["ZZZ"] [⟨2, "n", "keep/x", 10⟩, ⟨1, "n", "b", 5⟩]
      = some [(1, "smaller")] :=
  (c2_two_file_exclude ["KEEP"] ["ZZZ"] [⟨2, "n", "keep/x", 10⟩, ⟨1, "n", "b", 5⟩]
      ⟨2, "n", "keep/x", 10⟩ ⟨1, "n", "b", 5⟩ (by decide) (by decide) (by decide)).1
    (by decide) (by decide)

/-! ## Claim C5: groups in which every file matches an Include pattern -/

theorem leadRun_lt : ∀ (l : List MediaDCFile), l ≠ [] → leadRun l < l.length
  | [], h => absurd rfl h
  | [_], _ => by simp [leadRun]
  | f :: g :: rest, _ => by
    by_cases hsz : (f.filesize == g.filesize) = true
    · have ih := leadRun_lt (g :: rest) (by simp)
      simp only [leadRun, hsz, if_true, List.length_cons]
      simp at ih
      omega
    · have hszf : (f.filesize == g.filesize) = false := by
        cases hb : (f.filesize == g.filesize)
        · rfl
        · exact absurd hb hsz
      simp [leadRun, hszf]

theorem selLoopAux_allinc_frozen (exclude incl : List String) (files : List MediaDCFile) :
    ∀ (rest : List MediaDCFile) (i : Nat) (st : SelState),
      (∀ f ∈ rest, pathMatches exclude f = false) →
      (∀ f ∈ rest, pathMatches incl f = true) →
      st.firstNonIncludedWithSameSize < i →
      (selLoopAux exclude incl files i rest st).firstNonIncludedWithSameSize
        = st.firstNonIncludedWithSameSize
  | [], _, _, _, _, _ => rfl
  | f :: rest, i, st, hex, hinc, hlt => by
    have hstep := stepFile_include exclude incl files st i f
      (hex f (List.mem_cons_self f rest)) (hinc f (List.mem_cons_self f rest))
    have hbeq : (i == st.firstNonIncludedWithSameSize) = false :=
      beq_eq_false_iff_ne.2 (by omega)
    have hcond : (i == st.firstNonIncludedWithSameSize &&
        (match files[i + 1]? with
         | some nxt => f.filesize == nxt.filesize
         | none => false)) = false := by
      rw [hbeq, Bool.false_and]
    have hf2 : (stepFile exclude incl files st i f).firstNonIncludedWithSameSize
        = st.firstNonIncludedWithSameSize := by
      rw [hstep]
      simp [hcond]
    show (selLoopAux exclude incl files (i + 1) rest
        (stepFile exclude incl files st i f)).firstNonIncludedWithSameSize
      = st.firstNonIncludedWithSameSize
    rw [selLoopAux_allinc_frozen exclude incl files rest (i + 1)
      (stepFile exclude incl files st i f)
      (fun g hg => hex g (List.mem_cons_of_mem f hg))
      (fun g hg => hinc g (List.mem_cons_of_mem f hg))
      (by rw [hf2]; omega), hf2]

theorem selLoopAux_allinc_run (exclude incl : List String) (files : List MediaDCFile) :
    ∀ (rest : List MediaDCFile) (i : Nat) (st : SelState),
      files.drop i = rest →
      (∀ f ∈ rest, pathMatches exclude f = false) →
      (∀ f ∈ rest, pathMatches incl f = true) →
      st.firstNonIncludedWithSameSize = i →
      (selLoopAux exclude incl files i rest st).firstNonIncludedWithSameSize
        = i + leadRun rest
  | [], i, st, _, _, _, hfe => by
    show st.firstNonIncludedWithSameSize = i + leadRun []
    rw [hfe]
    simp [leadRun]
  | f :: rest, i, st, hdrop, hex, hinc, hfe => by
    have hstep := stepFile_include exclude incl files st i f
      (hex f (List.mem_cons_self f rest)) (hinc f (List.mem_cons_self f rest))
    have hbeq : (i == st.firstNonIncludedWithSameSize) = true := beq_iff_eq.2 hfe.symm
    have hnext : files[i + 1]? = rest.head? := by
      have h0 : (files.drop i)[1]? = files[i + 1]? := by
        rw [List.getElem?_drop]
      rw [hdrop] at h0
      cases rest with
      | nil => simpa using h0.symm
      | cons g rest2 => simpa using h0.symm
    have hdrop2 : files.drop (i + 1) = rest := by
      have hdd : (files.drop i).drop 1 = files.drop (i + 1) := List.drop_drop 1 i files
      rw [hdrop] at hdd
      simpa using hdd.symm
    cases rest with
    | nil =>
      have hcond : (i == st.firstNonIncludedWithSameSize &&
          (match files[i + 1]? with
           | some nxt => f.filesize == nxt.filesize
           | none => false)) = false := by
        rw [hnext]
        simp
      have hf2 : (stepFile exclude incl files st i f).firstNonIncludedWithSameSize
          = st.firstNonIncludedWithSameSize := by
        rw [hstep]
        simp [hcond]
      show (selLoopAux exclude incl files (i + 1) []
          (stepFile exclude incl files st i f)).firstNonIncludedWithSameSize
        = i + leadRun [f]
      have : (selLoopAux exclude incl files (i + 1) []
          (stepFile exclude incl files st i f)).firstNonIncludedWithSameSize
          = (stepFile exclude incl files st i f).firstNonIncludedWithSameSize := rfl
      rw [this, hf2, hfe]
      simp [leadRun]
    | cons g rest2 =>
      have hnext2 : files[i + 1]? = some g := by
        rw [hnext]
        rfl
      cases hsz : (f.filesize == g.filesize) with
      | true =>
        have hcond : (i == st.firstNonIncludedWithSameSize &&
            (match files[i + 1]? with
             | some nxt => f.filesize == nxt.filesize
             | none => false)) = true := by
          rw [hnext2, hbeq]
          simpa using hsz
        have hf2 : (stepFile exclude incl files st i f).firstNonIncludedWithSameSize
            = i + 1 := by
          rw [hstep]
          simp [hcond]
          omega
        show (selLoopAux exclude incl files (i + 1) (g :: rest2)
            (stepFile exclude incl files st i f)).firstNonIncludedWithSameSize
          = i + leadRun (f :: g :: rest2)
        rw [selLoopAux_allinc_run exclude incl files (g :: rest2) (i + 1)
          (stepFile exclude incl files st i f) hdrop2
          (fun x hx => hex x (List.mem_cons_of_mem f hx))
          (fun x hx => hinc x (List.mem_cons_of_mem f hx)) hf2]
        simp only [leadRun, hsz, if_true]
        omega
      | false =>
        have hcond : (i == st.firstNonIncludedWithSameSize &&
            (match files[i + 1]? with
             | some nxt => f.filesize == nxt.filesize
             | none => false)) = false := by
          rw [hnext2]
          simp
          intro _
          simpa using hsz
        have hf2 : (stepFile exclude incl files st i f).firstNonIncludedWithSameSize
            = st.firstNonIncludedWithSameSize := by
          rw [hstep]
          simp [hcond]
        show (selLoopAux exclude incl files (i + 1) (g :: rest2)
            (stepFile exclude incl files st i f)).firstNonIncludedWithSameSize
          = i + leadRun (f :: g :: rest2)
        rw [selLoopAux_allinc_frozen exclude incl files (g :: rest2) (i + 1)
          (stepFile exclude incl files st i f)
          (fun x hx => hex x (List.mem_cons_of_mem f hx))
          (fun x hx => hinc x (List.mem_cons_of_mem f hx))
          (by rw [hf2, hfe]; omega), hf2, hfe]
        simp only [leadRun, hsz]
        simp

theorem selLoopAux_allinc_marks (exclude incl : List String) (files : List MediaDCFile) :
    ∀ (rest : List MediaDCFile) (i : Nat) (st : SelState),
      (∀ f ∈ rest, pathMatches exclude f = false) →
      (∀ f ∈ rest, pathMatches incl f = true) →
      (∀ f ∈ rest, f.fileid ∉ assocKeys st.toDelete) →
      (rest.map (fun f => f.fileid)).Nodup →
      (selLoopAux exclude incl files i rest st).toDelete
        = st.toDelete ++ rest.map (fun f => (f.fileid, "include")) ∧
      (selLoopAux exclude incl files i rest st).keptOne = st.keptOne
  | [], i, st, _, _, _, _ => by
    constructor
    · show st.toDelete = st.toDelete ++ List.map (fun f : MediaDCFile => (f.fileid, "include")) []
      simp
    · rfl
  | f :: rest, i, st, hex, hinc, hfresh, hnd => by
    have hnd2 : (∀ x ∈ rest, ¬ x.fileid = f.fileid) ∧
        (rest.map (fun g => g.fileid)).Nodup := by
      simpa using hnd
    have hstep := stepFile_include exclude incl files st i f
      (hex f (List.mem_cons_self f rest)) (hinc f (List.mem_cons_self f rest))
    have hset : assocSet st.toDelete f.fileid "include"
        = st.toDelete ++ [(f.fileid, "include")] :=
      assocSet_fresh _ _ _ (hfresh f (List.mem_cons_self f rest))
    have htd : (stepFile exclude incl files st i f).toDelete
        = st.toDelete ++ [(f.fileid, "include")] := by
      rw [hstep]
      exact hset
    have hka : (stepFile exclude incl files st i f).keptOne = st.keptOne := by
      rw [hstep]
    have hfresh2 : ∀ g ∈ rest, g.fileid ∉ assocKeys (stepFile exclude incl files st i f).toDelete := by
      intro g hg hmem
      rw [htd, assocKeys_append] at hmem
      rcases List.mem_append.1 hmem with hmem | hmem
      · exact hfresh g (List.mem_cons_of_mem f hg) hmem
      · have hgf : g.fileid = f.fileid := List.mem_singleton.1 hmem
        exact hnd2.1 g hg hgf
    obtain ⟨ih1, ih2⟩ := selLoopAux_allinc_marks exclude incl files rest (i + 1)
      (stepFile exclude incl files st i f)
      (fun x hx => hex x (List.mem_cons_of_mem f hx))
      (fun x hx => hinc x (List.mem_cons_of_mem f hx))
      hfresh2 hnd2.2
    constructor
    · show (selLoopAux exclude incl files (i + 1) rest
          (stepFile exclude incl files st i f)).toDelete
        = st.toDelete ++ (f :: rest).map (fun g => (g.fileid, "include"))
      rw [ih1, htd]
      simp
    · show (selLoopAux exclude incl files (i + 1) rest
          (stepFile exclude incl files st i f)).keptOne = st.keptOne
      rw [ih2, hka]

/-- C5, counterexample: two equal-size live files, both matching the include
pattern "A"; the claim says the FIRST file of the sorted order is retained,
but the scan advances `firstNonIncludedWithSameSize` to 1 and the all-deleted
correction unmarks the SECOND file: the first file (fileid 1) keeps its
Delete verdict. -/
theorem c5_counterexample :
    pathMatches ["A"] ⟨1, "n", "a1", 10⟩ = true ∧
    pathMatches ["A"] ⟨2, "n", "a2", 10⟩ = true ∧
    sortFiles [⟨1, "n", "a1", 10⟩, ⟨2, "n", "a2", 10⟩]
      = [⟨1, "n", "a1", 10⟩, ⟨2, "n", "a2", 10⟩] ∧
    processGroup [] ["A"] [⟨1, "n", "a1", 10⟩, ⟨2, "n", "a2", 10⟩]
      = some [(1, "include")] := by
  exact ⟨rfl, rfl, rfl, rfl⟩

/-- C5, amended: in a group of at least two live files with distinct fileids
in which every file matches an Include pattern and none matches an Exclude
pattern, exactly one file is retained, namely the file at index
`leadRun (sorted files)` of the sorted order - the LAST file of the leading
run of equal-size files (which is the first file only when the two largest
sizes differ). -/
theorem c5_all_include_keeps_last_of_leading_run (exclude incl : List String)
    (live : List MediaDCFile)
    (hlen : 2 ≤ live.length) (hnd : (live.map (fun f => f.fileid)).Nodup)
    (hexc : ∀ f ∈ live, pathMatches exclude f = false)
    (hinc : ∀ f ∈ live, pathMatches incl f = true) :
    ∃ m f, processGroup exclude incl live = some m ∧
      (sortFiles live)[leadRun (sortFiles live)]? = some f ∧
      m.length = live.length - 1 ∧
      assocHas m f.fileid = false ∧
      (live.filter (fun g => !(assocHas m g.fileid))).length = 1 := by
  have hperm : (sortFiles live).Perm live := List.perm_insertionSort _ _
  have hplen : (sortFiles live).length = live.length := hperm.length_eq
  have hnd2 : ((sortFiles live).map (fun f => f.fileid)).Nodup := by
    have hp2 : ((sortFiles live).map (fun f => f.fileid)).Perm
        (live.map (fun f => f.fileid)) := hperm.map _
    exact hp2.symm.nodup hnd
  have hexc2 : ∀ f ∈ sortFiles live, pathMatches exclude f = false :=
    fun f hf => hexc f (hperm.mem_iff.1 hf)
  have hinc2 : ∀ f ∈ sortFiles live, pathMatches incl f = true :=
    fun f hf => hinc f (hperm.mem_iff.1 hf)
  obtain ⟨htd, hko⟩ := selLoopAux_allinc_marks exclude incl (sortFiles live)
    (sortFiles live) 0 { toDelete := [], firstNonIncludedWithSameSize := 0, keptOne := false }
    hexc2 hinc2 (fun f _ hmem => absurd hmem (by simp [assocKeys])) hnd2
  have htd2 : (selLoop exclude incl (sortFiles live)).toDelete
      = (sortFiles live).map (fun g => (g.fileid, "include")) := by
    simpa [selLoop] using htd
  have hrun := selLoopAux_allinc_run exclude incl (sortFiles live) (sortFiles live) 0
    { toDelete := [], firstNonIncludedWithSameSize := 0, keptOne := false }
    rfl hexc2 hinc2 rfl
  have hfnws2 : (selLoop exclude incl (sortFiles live)).firstNonIncludedWithSameSize
      = leadRun (sortFiles live) := by
    simpa [selLoop] using hrun
  have hne : sortFiles live ≠ [] := by
    intro h
    rw [h] at hplen
    simp at hplen
    omega
  have hlr := leadRun_lt (sortFiles live) hne
  cases hget : (sortFiles live)[leadRun (sortFiles live)]? with
  | none =>
    exfalso
    have := List.getElem?_eq_none_iff.1 hget
    omega
  | some f =>
    obtain ⟨hlt2, helem⟩ := List.getElem?_eq_some.1 hget
    have hfmem : f ∈ sortFiles live := helem ▸ List.getElem_mem hlt2
    have hfind : (sortFiles live).findIdx? (fun g => !(pathMatches incl g)) = none :=
      findIdx_none_of_all_false _ _ (fun g hg => by rw [hinc2 g hg]; rfl)
    have hkeeper : fallbackKeeper incl (sortFiles live) (leadRun (sortFiles live)) = some f := by
      unfold fallbackKeeper
      rw [hfind]
      simp [hget, Option.orElse]
    have hkeys : assocKeys ((sortFiles live).map (fun g => (g.fileid, "include")))
        = (sortFiles live).map (fun g => g.fileid) := by
      simp [assocKeys, List.map_map]
    have hfidmem : f.fileid ∈ assocKeys ((sortFiles live).map (fun g => (g.fileid, "include"))) := by
      rw [hkeys]
      exact List.mem_map_of_mem _ hfmem
    obtain ⟨hd1, hd2, hd3⟩ := assocDelete_spec
      ((sortFiles live).map (fun g => (g.fileid, "include"))) f.fileid
      (by rw [hkeys]; exact hnd2) hfidmem
    have hmaplen : ((sortFiles live).map (fun g => (g.fileid, "include"))).length
        = (sortFiles live).length := List.length_map _ _
    have hbeq : ((sortFiles live).length
        == (selLoop exclude incl (sortFiles live)).toDelete.length) = true := by
      rw [htd2, beq_iff_eq, hmaplen]
    have hne1 : ((assocDelete ((sortFiles live).map (fun g => (g.fileid, "include")))
        f.fileid).length == 0) = false := by
      rw [beq_eq_false_iff_ne]
      omega
    have hfin2 : ((assocDelete ((sortFiles live).map (fun g => (g.fileid, "include")))
        f.fileid).length == (sortFiles live).length - 1) = true := by
      rw [beq_iff_eq]
      omega
    have hsel : selectVerdicts exclude incl (sortFiles live)
        = some (assocDelete ((sortFiles live).map (fun g => (g.fileid, "include"))) f.fileid) := by
      simp [selectVerdicts, hbeq, htd2, hfnws2, hkeeper, hne1, hfin2]
    have hsub2 : assocKeys (assocDelete ((sortFiles live).map (fun g => (g.fileid, "include")))
        f.fileid) ⊆ (sortFiles live).map (fun g => g.fileid) := by
      intro x hx
      rw [← hkeys]
      exact hd3 hx
    have hcount := keepCount (sortFiles live)
      (assocDelete ((sortFiles live).map (fun g => (g.fileid, "include"))) f.fileid)
      hnd2 hd2 hsub2 (by omega)
    refine ⟨assocDelete ((sortFiles live).map (fun g => (g.fileid, "include"))) f.fileid,
      f, ?_, rfl, by omega, assocHas_delete_self _ _, ?_⟩
    · unfold processGroup
      rw [if_neg (by omega)]
      exact hsel
    · have hpf := hperm.filter (fun g => !(assocHas (assocDelete
        ((sortFiles live).map (fun g => (g.fileid, "include"))) f.fileid) g.fileid))
      rw [← hpf.length_eq]
      exact hcount

theorem c5_all_include_keeps_last_of_leading_run_witness :
    ∃ m f, processGroup [] ["A"] [⟨1, "n", "a1", 10⟩, ⟨2, "n", "a2", 10⟩] = some m ∧
      (sortFiles [⟨1, "n", "a1", 10⟩, ⟨2, "n", "a2", 10⟩])[leadRun
        (sortFiles [⟨1, "n", "a1", 10⟩, ⟨2, "n", "a2", 10⟩])]? = some f ∧
      m.length = ([⟨1, "n", "a1", 10⟩, ⟨2, "n", "a2", 10⟩] : List MediaDCFile).length - 1 ∧
      assocHas m f.fileid = false ∧
      (([⟨1, "n", "a1", 10⟩, ⟨2, "n", "a2", 10⟩] : List MediaDCFile).filter
          (fun g => !(assocHas m g.fileid))).length = 1 :=
  c5_all_include_keeps_last_of_leading_run [] ["A"]
    [⟨1, "n", "a1", 10⟩, ⟨2, "n", "a2", 10⟩]
    (by decide) (by decide) (by decide) (by decide)
